import Mathlib

/-!
Shallow embedding of `hydra_dsg_builder/src/incremental_mesh_segmenter.cpp`
(namespace `hydra::incremental`, class `MeshSegmenter`).

Modelling conventions:
* `NodeId`, semantic labels and vertex indices are `Nat`.
* `std::set<NodeId>` becomes a sorted duplicate-free `List Nat` (iteration in
  ascending order, as for `std::set`); `std::map` becomes an association list
  `List (Nat × _)` (`alookup` finds the first binding, mirroring unique-key maps).
* The external collaborators (clustering oracle, bounding-box extraction,
  color→label table) are parameters, exactly as the spec declares them
  out of scope.  A bounding box is its interface: a containment test and a
  volume.  The floating-point `norm() < horizon` test of `getActiveIndices`
  is abstracted into a boolean oracle carried by the optional reference
  position, keeping the control flow of the source.
* `uint64_t` subtraction is `usub64` (explicit mod `2^64`).
* Observer callbacks are reified: `detect` returns the list of invocation
  events (callback id with the arguments passed), in invocation order, and
  the list of labels actually sent to the clustering oracle.
* In the dedup pass of `updateGraph` the source keeps a C++ reference to the
  outer node's attributes across a possible `removeNode` of that very node;
  the embedding snapshots the attributes at the top of the outer loop, i.e.
  reads of the dangling reference yield the last written values.
-/

abbrev NodeId := Nat

structure Pt where
  x : Int
  y : Int
  z : Int
deriving DecidableEq

/-- Interface of the external bounding-box collaborator: a point-containment
test and a volume (`spark_dsg` boxes; only these two observations are used by
the source file). -/
structure BoundingBox where
  contains : Pt → Bool
  vol : Int

structure MeshVertex where
  color : Nat
deriving DecidableEq

/-- `ObjectNodeAttributes`: the attribute fields of an object node that the
source reads or writes. -/
structure ObjectAttrs where
  semantic_label : Nat
  name : Nat
  bounding_box : BoundingBox
  color : Nat
  position : Pt

/-- A detected cluster: member vertex indices, member points, centroid. -/
structure Cluster where
  indices : List Nat
  cloud : List MeshVertex
  centroid : Pt
deriving DecidableEq

/-- First-binding lookup in an association list (unique-key map). -/
def alookup (n : Nat) : List (Nat × α) → Option α
  | [] => none
  | p :: rest => if p.1 == n then some p.2 else alookup n rest

/-- The persistent scene-graph store, restricted to the interface the source
consumes: `hasNode`, `getNode`, `emplaceNode`, `removeNode`, `insertMeshEdge`. -/
structure Graph where
  nodes : List (NodeId × ObjectAttrs)
  meshEdges : List (NodeId × Nat)

def Graph.getNode (g : Graph) (n : NodeId) : Option ObjectAttrs :=
  alookup n g.nodes

def Graph.hasNode (g : Graph) (n : NodeId) : Bool :=
  (g.getNode n).isSome

def Graph.removeNode (g : Graph) (n : NodeId) : Graph :=
  { g with nodes := g.nodes.filter (fun p => p.1 != n) }

def Graph.emplaceNode (g : Graph) (n : NodeId) (a : ObjectAttrs) : Graph :=
  if g.hasNode n then g else { g with nodes := g.nodes ++ [(n, a)] }

def Graph.setAttrs (g : Graph) (n : NodeId) (a : ObjectAttrs) : Graph :=
  { g with nodes := g.nodes.map (fun p => if p.1 == n then (p.1, a) else p) }

def Graph.insertMeshEdge (g : Graph) (n : NodeId) (i : Nat) : Graph :=
  { g with meshEdges := g.meshEdges ++ [(n, i)] }

/-- `MeshSegmenterConfig`: the configuration fields this file reads
(`labels`, `min_cluster_size`, and `active_horizon_s * 1e9` precomputed to
nanoseconds as `horizon`). -/
structure Config where
  labels : List Nat
  min_cluster_size : Nat
  horizon : Nat

/-- Mutable bookkeeping of `MeshSegmenter`: `active_objects_`,
`active_object_timestamps_`, `objects_to_check_for_places_`, `next_node_id_`. -/
structure SegState where
  active : List (Nat × List Nat)
  tstamps : List (Nat × Nat)
  toCheck : List Nat
  nextId : Nat
deriving DecidableEq

/-- Ordered insertion into a sorted duplicate-free list (`std::set::insert`). -/
def setInsert (n : Nat) : List Nat → List Nat
  | [] => [n]
  | m :: rest =>
    if n < m then n :: m :: rest
    else if n == m then m :: rest
    else m :: setInsert n rest

/-- `std::set::erase` by value. -/
def setErase (n : Nat) (l : List Nat) : List Nat :=
  l.filter (fun m => m != n)

/-- Lookup with default (used for `std::map::at` under the invariant that the
key is present). -/
def lookupD (m : List (Nat × Nat)) (n d : Nat) : Nat :=
  (alookup n m).getD d

/-- Insert-or-assign on a timestamp map. -/
def tsSet (n t : Nat) : List (Nat × Nat) → List (Nat × Nat)
  | [] => [(n, t)]
  | p :: rest => if p.1 == n then (n, t) :: rest else p :: tsSet n t rest

def tsErase (n : Nat) (m : List (Nat × Nat)) : List (Nat × Nat) :=
  m.filter (fun p => p.1 != n)

/-- `active_objects_.at(label)` (default `[]` for a missing key). -/
def alLookupD (label : Nat) (d : List Nat) (m : List (Nat × List Nat)) : List Nat :=
  (alookup label m).getD d

/-- Update the binding of `label` in the active-object map (no-op on a missing
key; the constructor seeds a binding for every configured label). -/
def alUpdate (label : Nat) (f : List Nat → List Nat)
    (m : List (Nat × List Nat)) : List (Nat × List Nat) :=
  m.map (fun p => if p.1 == label then (p.1, f p.2) else p)

/-- Wrapping `uint64_t` subtraction: `(a - b) mod 2^64` for `a, b < 2^64`. -/
def usub64 (a b : Nat) : Nat :=
  (a + 2 ^ 64 - b) % 2 ^ 64

/-- The archive-age test of `archiveOldObjects` (line 225):
`latest_timestamp - active_object_timestamps_.at(object_node) >
 static_cast<uint64_t>(config_.active_horizon_s * 1e9)`. -/
def overdue (cfg : Config) (tst : List (Nat × Nat)) (ts n : Nat) : Bool :=
  decide (cfg.horizon < usub64 ts (lookupD tst n 0))

/-- Loop body of the scan of `archiveOldObjects` (lines 220–230): push the
identifier onto `removed_nodes` when its node vanished, and push it again and
insert it into `archived` when its observation age exceeds the horizon. -/
def archiveStep (g : Graph) (cfg : Config) (tst : List (Nat × Nat)) (ts : Nat)
    (acc : List Nat × List Nat) (n : Nat) : List Nat × List Nat :=
  let rm := if g.hasNode n then acc.1 else acc.1 ++ [n]
  if overdue cfg tst ts n then (rm ++ [n], setInsert n acc.2) else (rm, acc.2)

/-- The per-label scan of `archiveOldObjects`: builds `removed_nodes` (a
`std::list`, duplicates allowed) and inserts age-expired ids into `archived`. -/
def archiveScan (g : Graph) (cfg : Config) (tst : List (Nat × Nat)) (ts : Nat)
    (L : List Nat) (acc : List Nat × List Nat) : List Nat × List Nat :=
  L.foldl (archiveStep g cfg tst ts) acc

/-- One label of the archive pass: scan, then erase every entry of
`removed_nodes` from the active index and the timestamp map. -/
def archivePassLabel (g : Graph) (cfg : Config) (ts : Nat)
    (acc : SegState × List Nat) (label : Nat) : SegState × List Nat :=
  let st := acc.1
  let scanned := archiveScan g cfg st.tstamps ts (alLookupD label [] st.active) ([], acc.2)
  ({ st with
      active := alUpdate label (fun s => scanned.1.foldl (fun s n => setErase n s) s) st.active,
      tstamps := scanned.1.foldl (fun m n => tsErase n m) st.tstamps },
   scanned.2)

/-- `MeshSegmenter::archiveOldObjects` (lines 215–238). -/
def archiveOldObjects (g : Graph) (cfg : Config) (st : SegState) (ts : Nat) :
    SegState × List Nat :=
  cfg.labels.foldl (archivePassLabel g cfg ts) (st, [])

/-- `objectsMatch` (line 72): the cluster's centroid lies inside the node's
bounding box (`false` stands for the unreachable missing-node case, which in
the source would throw from `optional::value`). -/
def objectsMatchD (g : Graph) (c : Cluster) (n : NodeId) : Bool :=
  match g.getNode n with
  | some a => a.bounding_box.contains c.centroid
  | none => false

/-- `MeshSegmenter::updateObjectInGraph` (lines 348–372). -/
def updateObjectInGraph (ext : List MeshVertex → BoundingBox) (g : Graph)
    (c : Cluster) (nid : NodeId) (ts : Nat) (st : SegState) : Graph × SegState :=
  let st1 := { st with tstamps := tsSet nid ts st.tstamps }
  let g1 := c.indices.foldl (fun g i => g.insertMeshEdge nid i) g
  let newBox := ext c.cloud
  match g1.getNode nid with
  | none => (g1, st1)
  | some attrs =>
    if newBox.vol ≤ attrs.bounding_box.vol then (g1, st1)
    else
      (g1.setAttrs nid { attrs with position := c.centroid, bounding_box := newBox },
       { st1 with toCheck := setInsert nid st1.toCheck })

/-- `MeshSegmenter::addObjectToGraph` (lines 374–407). -/
def addObjectToGraph (ext : List MeshVertex → BoundingBox) (g : Graph)
    (c : Cluster) (label : Nat) (ts : Nat) (st : SegState) : Graph × SegState :=
  match c.cloud with
  | [] => (g, st)
  | v :: _ =>
    let attrs : ObjectAttrs :=
      { semantic_label := label
        name := st.nextId
        bounding_box := ext c.cloud
        color := v.color
        position := c.centroid }
    let g1 := g.emplaceNode st.nextId attrs
    let st1 :=
      { st with
          active := alUpdate label (setInsert st.nextId) st.active
          tstamps := tsSet st.nextId ts st.tstamps
          toCheck := setInsert st.nextId st.toCheck }
    let g2 := c.indices.foldl (fun g i => g.insertMeshEdge st.nextId i) g1
    (g2, { st1 with nextId := st1.nextId + 1 })

/-- The match-or-create step for one cluster (lines 288–303): first-match scan
over the label's active set, then update or create. -/
def processCluster (ext : List MeshVertex → BoundingBox) (label : Nat) (ts : Nat)
    (acc : Graph × SegState) (c : Cluster) : Graph × SegState :=
  match (alLookupD label [] acc.2.active).find? (fun n => objectsMatchD acc.1 c n) with
  | some nid => updateObjectInGraph ext acc.1 c nid ts acc.2
  | none => addObjectToGraph ext acc.1 c label ts acc.2

/-- Removal of a deduplicated object (lines 330–333 / 335–338): from the graph,
the label's active set, the timestamp map and the pending-linkage set. -/
def removeEverywhere (label : Nat) (x : NodeId) (g : Graph) (st : SegState) :
    Graph × SegState :=
  (g.removeNode x,
   { st with
      active := alUpdate label (setErase x) st.active
      tstamps := tsErase x st.tstamps
      toCheck := setErase x st.toCheck })

/-- Inner loop of the dedup pass (lines 315–341); `na` is the snapshot of the
outer node's attributes. -/
def dedupInner (label : Nat) (nid : NodeId) (na : ObjectAttrs)
    (acc : Graph × SegState) (other : NodeId) : Graph × SegState :=
  if other == nid then acc
  else
    match acc.1.getNode other with
    | none => acc
    | some oa =>
      if na.bounding_box.contains oa.position || oa.bounding_box.contains na.position then
        if oa.bounding_box.vol ≤ na.bounding_box.vol then
          removeEverywhere label other acc.1 acc.2
        else
          removeEverywhere label nid acc.1 acc.2
      else acc

/-- Outer loop body of the dedup pass (lines 307–313). -/
def dedupOuter (label : Nat) (toCheck : List Nat)
    (acc : Graph × SegState) (nid : NodeId) : Graph × SegState :=
  match acc.1.getNode nid with
  | none => acc
  | some na => toCheck.foldl (dedupInner label nid na) acc

/-- Per-label dedup pass (lines 306–342): `to_check` is a copy of the label's
active set taken once, iterated by both loops. -/
def dedupLabel (label : Nat) (g : Graph) (st : SegState) : Graph × SegState :=
  let toCheck := alLookupD label [] st.active
  toCheck.foldl (dedupOuter label toCheck) (g, st)

/-- One label of step 2 + step 3 of `updateGraph`: all clusters of the label,
then the dedup pass. -/
def processLabel (ext : List MeshVertex → BoundingBox) (ts : Nat)
    (acc : Graph × SegState) (lc : Nat × List Cluster) : Graph × SegState :=
  let acc1 := lc.2.foldl (processCluster ext lc.1 ts) acc
  dedupLabel lc.1 acc1.1 acc1.2

/-- `MeshSegmenter::updateGraph` (lines 283–346), the `reconcile` entry point:
archive pass, then match-or-create and dedup per label; returns the new graph,
the new state, and the archived set. -/
def updateGraph (cfg : Config) (ext : List MeshVertex → BoundingBox) (g : Graph)
    (clusters : List (Nat × List Cluster)) (ts : Nat) (st : SegState) :
    Graph × SegState × List Nat :=
  let ar := archiveOldObjects g cfg st ts
  let r := clusters.foldl (processLabel ext ts) (g, ar.1)
  (r.1, r.2, ar.2)

/-- `MeshSegmenter::getActiveIndices` (lines 131–149).  The reference position,
when present, is abstracted into the boolean outcome of the Euclidean
`norm() < active_index_horizon_m` test per index. -/
def getActiveIndices (indices : List Nat) (optPos : Option (Nat → Bool)) : List Nat :=
  match optPos with
  | none => indices
  | some inHorizon => indices.filter inHorizon

/-- `MeshSegmenter::getVertexLabel` (lines 240–250): out-of-range indices give
no label, the color→label table is the external `labelMap`. -/
def getVertexLabel (mesh : List MeshVertex) (labelMap : Nat → Option Nat)
    (idx : Nat) : Option Nat :=
  match mesh[idx]? with
  | none => none
  | some v => labelMap v.color

/-- Append an index to the label's entry of `LabelIndices` (creating it on
first sight). -/
def liAdd (li : List (Nat × List Nat)) (label idx : Nat) : List (Nat × List Nat) :=
  if (alookup label li).isSome then
    li.map (fun p => if p.1 == label then (p.1, p.2 ++ [idx]) else p)
  else li ++ [(label, [idx])]

/-- `MeshSegmenter::getLabelIndices` (lines 252–281): resolve each index's
label, skip failures, keep only labels of interest. -/
def getLabelIndices (cfg : Config) (mesh : List MeshVertex)
    (labelMap : Nat → Option Nat) (indices : List Nat) : List (Nat × List Nat) :=
  indices.foldl
    (fun li idx =>
      match getVertexLabel mesh labelMap idx with
      | none => li
      | some label => if cfg.labels.contains label then liAdd li label idx else li)
    []

/-- Combined removal condition of the archive pass: the node vanished from the
graph (reason (a)) or the observation age exceeds the horizon (reason (b)). -/
def badFor (g : Graph) (cfg : Config) (tst : List (Nat × Nat)) (ts n : Nat) : Bool :=
  !g.hasNode n || overdue cfg tst ts n

/-- Per-label active sets are pairwise disjoint (each tracked object carries
one semantic label). -/
def ActDisjoint (m : List (Nat × List Nat)) : Prop :=
  ∀ p ∈ m, ∀ q ∈ m, p.1 ≠ q.1 → ∀ x, x ∈ p.2 → x ∉ q.2

/-- Every active identifier resolves to a node of the graph. -/
def NodesLive (g : Graph) (st : SegState) : Prop :=
  ∀ p ∈ st.active, ∀ n ∈ p.2, g.hasNode n = true

/-- The bookkeeping invariant maintained by `MeshSegmenter` across cycles:
unique map keys, the keys of `active` are exactly the configured labels
(established by the constructor), pairwise-disjoint per-label sets, identifier
freshness with respect to the `next_node_id_` counter, and mutual consistency
of the active index and the timestamp map. -/
structure SegInv (cfg : Config) (st : SegState) : Prop where
  labelsND : cfg.labels.Nodup
  actND : (st.active.map Prod.fst).Nodup
  tsND : (st.tstamps.map Prod.fst).Nodup
  keysIn : ∀ p ∈ st.active, p.1 ∈ cfg.labels
  covers : ∀ l ∈ cfg.labels, (alookup l st.active).isSome = true
  disj : ActDisjoint st.active
  fresh : ∀ p ∈ st.active, ∀ n ∈ p.2, n < st.nextId
  consist : ∀ n, (∃ p ∈ st.active, n ∈ p.2) ↔ (alookup n st.tstamps).isSome = true

/-- Result of `detect`, with the side effects reified: the returned
`LabelClusters`, the labels sent to the clustering oracle (in order), and the
observer-callback invocation events (callback id with the active indices and
label partition passed to it), in invocation order. -/
structure DetectOut where
  result : List (Nat × List Cluster)
  calls : List Nat
  events : List (Nat × List Nat × List (Nat × List Nat))

/-- `MeshSegmenter::detect` (lines 151–194).  `oracle` is the external
euclidean-cluster extraction (`findClusters`) applied to a label's indices. -/
def detect (cfg : Config) (mesh : List MeshVertex) (labelMap : Nat → Option Nat)
    (oracle : List Nat → List Cluster) (callbacks : List Nat)
    (indices : List Nat) (optPos : Option (Nat → Bool)) : DetectOut :=
  let active := getActiveIndices indices optPos
  if active.isEmpty then ⟨[], [], []⟩
  else
    let li := getLabelIndices cfg mesh labelMap active
    if li.isEmpty then ⟨[], [], callbacks.map (fun c => (c, active, li))⟩
    else
      let rc :=
        cfg.labels.foldl
          (fun (acc : List (Nat × List Cluster) × List Nat) label =>
            match alookup label li with
            | none => acc
            | some idxs =>
              if idxs.length < cfg.min_cluster_size then acc
              else (acc.1 ++ [(label, oracle idxs)], acc.2 ++ [label]))
          ([], [])
      ⟨rc.1, rc.2, callbacks.map (fun c => (c, active, li))⟩



/-! ### Concrete instances used by the counterexamples and witnesses -/

def c1g : Graph := ⟨[], []⟩
def c1cfg : Config := ⟨[1], 1, 5000000000⟩
def c1st : SegState := ⟨[(1, [5])], [(5, 100)], [], 10⟩

def w1g : Graph := ⟨[], []⟩
def w1cfg : Config := ⟨[1], 1, 5⟩
def w1st : SegState := ⟨[(1, [5])], [(5, 0)], [], 10⟩

def c2pA : Pt := ⟨0, 0, 0⟩
def c2pB : Pt := ⟨1, 0, 0⟩
def c2pC : Pt := ⟨2, 0, 0⟩
def c2boxA : BoundingBox := ⟨fun p => p == c2pB, 10⟩
def c2boxB : BoundingBox := ⟨fun p => p == c2pC, 5⟩
def c2boxC : BoundingBox := ⟨fun _ => false, 3⟩
def c2g : Graph :=
  ⟨[(1, ⟨1, 1, c2boxA, 0, c2pA⟩), (2, ⟨1, 2, c2boxB, 0, c2pB⟩),
    (3, ⟨1, 3, c2boxC, 0, c2pC⟩)], []⟩
def c2st : SegState := ⟨[(1, [1, 2, 3])], [(1, 0), (2, 0), (3, 0)], [], 100⟩
def c2cfg : Config := ⟨[1], 1, 5000000000⟩
def c2ext : List MeshVertex → BoundingBox := fun _ => ⟨fun _ => false, 0⟩

def w2attrsA : ObjectAttrs := ⟨1, 1, ⟨fun _ => true, 10⟩, 0, ⟨0, 0, 0⟩⟩
def w2attrsB : ObjectAttrs := ⟨1, 2, ⟨fun _ => false, 4⟩, 0, ⟨1, 0, 0⟩⟩
def w2g : Graph := ⟨[(1, w2attrsA), (2, w2attrsB)], []⟩
def w2st : SegState := ⟨[(1, [1, 2])], [(1, 0), (2, 0)], [], 100⟩

def w3attrs : ObjectAttrs := ⟨3, 7, ⟨fun _ => true, 10⟩, 0, ⟨0, 0, 0⟩⟩
def w3g : Graph := ⟨[(7, w3attrs)], []⟩
def w3st : SegState := ⟨[(3, [7])], [(7, 0)], [], 100⟩
def w3ext : List MeshVertex → BoundingBox := fun _ => ⟨fun _ => false, 8⟩
def w3c : Cluster := ⟨[11, 12], [⟨5⟩], ⟨1, 1, 1⟩⟩

def c4cfg : Config := ⟨[1], 1, 0⟩
def c4mesh : List MeshVertex := [⟨7⟩]
def c4lm : Nat → Option Nat := fun c => if c == 7 then some 1 else none
def c4oracle : List Nat → List Cluster := fun _ => []

def w4cfg : Config := ⟨[1], 1, 0⟩
def w4mesh : List MeshVertex := [⟨7⟩]
def w4lm : Nat → Option Nat := fun c => if c == 7 then some 1 else none
def w4oracle : List Nat → List Cluster := fun idxs => [⟨idxs, [⟨7⟩], ⟨0, 0, 0⟩⟩]

def c5cfg : Config := ⟨[1], 1, 0⟩
def c5mesh : List MeshVertex := [⟨7⟩]
def c5lm : Nat → Option Nat := fun c => if c == 7 then some 1 else none
def c5oracle : List Nat → List Cluster := fun _ => []

def w5cfg : Config := ⟨[1], 1, 0⟩
def w5mesh : List MeshVertex := [⟨7⟩]
def w5lm : Nat → Option Nat := fun c => if c == 7 then some 1 else none
def w5oracle : List Nat → List Cluster := fun _ => []

def c6cfg : Config := ⟨[1], 1, 5⟩
def c6st : SegState := ⟨[(1, [5])], [(5, 0)], [5], 10⟩
def c6g : Graph := ⟨[], []⟩
def c6ext : List MeshVertex → BoundingBox := fun _ => ⟨fun _ => false, 0⟩

def w6attrs : ObjectAttrs := ⟨1, 2, ⟨fun _ => false, 1⟩, 0, ⟨0, 0, 0⟩⟩
def w6cfg : Config := ⟨[1], 1, 5⟩
def w6st : SegState := ⟨[(1, [2])], [(2, 0)], [], 10⟩
def w6g : Graph := ⟨[(2, w6attrs)], []⟩
def w6ext : List MeshVertex → BoundingBox := fun _ => ⟨fun _ => false, 0⟩

def w7attrsA : ObjectAttrs := ⟨1, 4, ⟨fun _ => true, 3⟩, 0, ⟨0, 0, 0⟩⟩
def w7attrsB : ObjectAttrs := ⟨1, 7, ⟨fun _ => true, 3⟩, 0, ⟨1, 0, 0⟩⟩
def w7g : Graph := ⟨[(4, w7attrsA), (7, w7attrsB)], []⟩
def w7st : SegState := ⟨[(1, [4, 7])], [(4, 0), (7, 0)], [], 100⟩
def w7c : Cluster := ⟨[], [], ⟨0, 0, 0⟩⟩
def w7ext : List MeshVertex → BoundingBox := fun _ => ⟨fun _ => false, 0⟩

def w8attrs : ObjectAttrs := ⟨1, 2, ⟨fun _ => false, 1⟩, 0, ⟨0, 0, 0⟩⟩
def w8cfg : Config := ⟨[1], 1, 5⟩
def w8st : SegState := ⟨[(1, [2])], [(2, 0)], [], 10⟩
def w8g : Graph := ⟨[(2, w8attrs)], []⟩
def w8ext : List MeshVertex → BoundingBox := fun _ => ⟨fun _ => false, 0⟩

def w9cfg : Config := ⟨[1], 1, 5⟩
def w9st : SegState := ⟨[(1, [2])], [(2, 0)], [], 10⟩
def w9g : Graph := ⟨[], []⟩
def w9c : Cluster := ⟨[21], [⟨7⟩], ⟨0, 0, 0⟩⟩
def w9ext : List MeshVertex → BoundingBox := fun _ => ⟨fun _ => false, 0⟩

def w10cfg : Config := ⟨[1], 1, 10⟩
def w10st : SegState := ⟨[(1, [5])], [(5, 100)], [], 6⟩
def w10g : Graph := ⟨[], []⟩

/-! ### Association-list and set-operation lemmas -/

theorem alookup_mem {α} {n : Nat} {v : α} :
    ∀ {m : List (Nat × α)}, alookup n m = some v → (n, v) ∈ m := by
  intro m
  induction m with
  | nil => intro h; simp [alookup] at h
  | cons p rest ih =>
    intro h
    by_cases hp : p.1 = n
    · rw [alookup, if_pos (by simpa using hp)] at h
      injection h with h
      exact List.mem_cons.2 (Or.inl (by cases p; simp_all))
    · rw [alookup, if_neg (by simpa using hp)] at h
      exact List.mem_cons.2 (Or.inr (ih h))

theorem alookup_eq_none_iff {α} {n : Nat} :
    ∀ {m : List (Nat × α)}, alookup n m = none ↔ ∀ p ∈ m, p.1 ≠ n := by
  intro m
  induction m with
  | nil => simp [alookup]
  | cons p rest ih =>
    by_cases hp : p.1 = n
    · rw [alookup, if_pos (by simpa using hp)]
      constructor
      · intro h; cases h
      · intro h; exact absurd hp (h p (List.mem_cons_self p rest))
    · rw [alookup, if_neg (by simpa using hp)]
      rw [ih]
      constructor
      · intro h q hq
        rcases List.mem_cons.1 hq with h1 | h1
        · subst h1; exact hp
        · exact h q h1
      · intro h q hq
        exact h q (List.mem_cons_of_mem p hq)

theorem alookup_isSome_iff {α} {n : Nat} {m : List (Nat × α)} :
    (alookup n m).isSome = true ↔ ∃ p ∈ m, p.1 = n := by
  rcases h : alookup n m with _ | v
  · constructor
    · intro hh; exact absurd hh (by simp)
    · rintro ⟨p, hp, hpn⟩
      exact absurd hpn (alookup_eq_none_iff.1 h p hp)
  · constructor
    · intro _
      exact ⟨(n, v), alookup_mem h, rfl⟩
    · intro _; rfl

theorem alookup_of_mem_nodup {α} {n : Nat} {v : α} {m : List (Nat × α)}
    (hnd : (m.map Prod.fst).Nodup) (hmem : (n, v) ∈ m) : alookup n m = some v := by
  induction m with
  | nil => cases hmem
  | cons p rest ih =>
    simp only [List.map_cons, List.nodup_cons] at hnd
    rcases List.mem_cons.1 hmem with h | h
    · subst h
      rw [alookup, if_pos (by simp)]
    · have hne : ¬p.1 = n := by
        intro he
        exact hnd.1 (he ▸ (List.mem_map.2 ⟨(n, v), h, rfl⟩))
      rw [alookup, if_neg (by simpa using hne)]
      exact ih hnd.2 h

theorem alookup_append_of_none {α} {n : Nat} {m2 : List (Nat × α)} :
    ∀ {m1 : List (Nat × α)}, alookup n m1 = none →
      alookup n (m1 ++ m2) = alookup n m2 := by
  intro m1
  induction m1 with
  | nil => intro _; rfl
  | cons p rest ih =>
    intro h
    by_cases hp : p.1 = n
    · rw [alookup, if_pos (by simpa using hp)] at h
      cases h
    · rw [alookup, if_neg (by simpa using hp)] at h
      rw [List.cons_append, alookup, if_neg (by simpa using hp)]
      exact ih h

theorem alookup_filter_key_ne {α} {k x : Nat} :
    ∀ {m : List (Nat × α)},
      alookup k (m.filter (fun p => p.1 != x)) =
        if k = x then none else alookup k m := by
  intro m
  induction m with
  | nil => simp [alookup]
  | cons p rest ih =>
    by_cases hpx : p.1 = x
    · rw [List.filter_cons_of_neg (by simpa using hpx)]
      rw [ih]
      by_cases hk : k = x
      · simp [hk]
      · rw [if_neg hk, if_neg hk, alookup,
            if_neg (by simp only [beq_iff_eq]; omega)]
    · rw [List.filter_cons_of_pos (by simpa using hpx)]
      by_cases hpk : p.1 = k
      · have hkx : ¬k = x := by omega
        rw [alookup, if_pos (by simpa using hpk), if_neg hkx, alookup,
            if_pos (by simpa using hpk)]
      · rw [alookup, if_neg (by simpa using hpk), ih]
        by_cases hk : k = x
        · simp [hk]
        · rw [if_neg hk, if_neg hk, alookup, if_neg (by simpa using hpk)]

theorem alookup_mapUpdate {α} (f : α → α) (l k : Nat) :
    ∀ (m : List (Nat × α)),
      alookup k (m.map (fun p => if p.1 == l then (p.1, f p.2) else p)) =
        if k = l then (alookup l m).map f else alookup k m := by
  intro m
  induction m with
  | nil => by_cases hk : k = l <;> simp [alookup, hk]
  | cons p rest ih =>
    rw [List.map_cons]
    by_cases hpl : p.1 = l
    · rw [if_pos (by simpa using hpl)]
      by_cases hk : k = l
      · subst hk
        rw [alookup, if_pos (by simpa using hpl), if_pos rfl, alookup,
            if_pos (by simpa using hpl), Option.map_some']
      · rw [alookup, if_neg (by simp only [beq_iff_eq]; omega), ih, if_neg hk,
            if_neg hk, alookup, if_neg (by simp only [beq_iff_eq]; omega)]
    · rw [if_neg (by simpa using hpl)]
      by_cases hpk : p.1 = k
      · have hk : ¬k = l := by omega
        rw [alookup, if_pos (by simpa using hpk), if_neg hk, alookup,
            if_pos (by simpa using hpk)]
      · rw [alookup, if_neg (by simpa using hpk), ih]
        by_cases hk : k = l
        · rw [if_pos hk, if_pos hk, alookup, if_neg (by simpa using hpl)]
        · rw [if_neg hk, if_neg hk, alookup, if_neg (by simpa using hpk)]

theorem mapUpdate_map_fst {α} (f : α → α) (l : Nat) (m : List (Nat × α)) :
    (m.map (fun p => if p.1 == l then (p.1, f p.2) else p)).map Prod.fst =
      m.map Prod.fst := by
  induction m with
  | nil => rfl
  | cons p rest ih =>
    rw [List.map_cons, List.map_cons, List.map_cons, ih]
    by_cases hpl : p.1 = l
    · rw [if_pos (by simpa using hpl)]
    · rw [if_neg (by simpa using hpl)]

theorem mapUpdate_congr_id {α} (f : α → α) (l : Nat) :
    ∀ (m : List (Nat × α)), (∀ p ∈ m, p.1 = l → f p.2 = p.2) →
      m.map (fun p => if p.1 == l then (p.1, f p.2) else p) = m := by
  intro m
  induction m with
  | nil => intro _; rfl
  | cons p rest ih =>
    intro h
    have ht : rest.map (fun p => if p.1 == l then (p.1, f p.2) else p) = rest :=
      ih (fun q hq => h q (List.mem_cons_of_mem p hq))
    rw [List.map_cons, ht]
    by_cases hpl : p.1 = l
    · rw [if_pos (by simpa using hpl), h p (List.mem_cons_self p rest) hpl]
    · rw [if_neg (by simpa using hpl)]

theorem mapUpdate_mem {α} (f : α → α) (l : Nat) (m : List (Nat × α)) (q : Nat × α)
    (h : q ∈ m.map (fun p => if p.1 == l then (p.1, f p.2) else p)) :
    ∃ p ∈ m, q.1 = p.1 ∧ (q.2 = p.2 ∨ q.2 = f p.2) := by
  rcases List.mem_map.1 h with ⟨p, hp, hq⟩
  by_cases hpl : p.1 = l
  · rw [if_pos (by simpa using hpl)] at hq
    exact ⟨p, hp, by subst hq; simp⟩
  · rw [if_neg (by simpa using hpl)] at hq
    exact ⟨p, hp, by subst hq; simp⟩

theorem mem_setInsert {x n : Nat} :
    ∀ {l : List Nat}, x ∈ setInsert n l ↔ x = n ∨ x ∈ l := by
  intro l
  induction l with
  | nil => simp [setInsert]
  | cons m rest ih =>
    by_cases h1 : n < m
    · rw [setInsert, if_pos h1]
      simp [List.mem_cons]
    · rw [setInsert, if_neg h1]
      by_cases h2 : n = m
      · rw [if_pos (by simpa using h2)]
        subst h2
        simp only [List.mem_cons]
        constructor
        · intro h; tauto
        · intro h; tauto
      · rw [if_neg (by simpa using h2)]
        simp only [List.mem_cons, ih]
        tauto

theorem pairwise_setInsert {n : Nat} :
    ∀ {l : List Nat}, l.Pairwise (· < ·) → (setInsert n l).Pairwise (· < ·) := by
  intro l
  induction l with
  | nil => intro _; simp [setInsert]
  | cons m rest ih =>
    intro h
    rcases List.pairwise_cons.1 h with ⟨hm, hrest⟩
    by_cases h1 : n < m
    · rw [setInsert, if_pos h1]
      exact List.pairwise_cons.2
        ⟨fun y hy => by
          rcases List.mem_cons.1 hy with h2 | h2
          · omega
          · have := hm y h2; omega, h⟩
    · rw [setInsert, if_neg h1]
      by_cases h2 : n = m
      · rw [if_pos (by simpa using h2)]; exact h
      · rw [if_neg (by simpa using h2)]
        refine List.pairwise_cons.2 ⟨fun y hy => ?_, ih hrest⟩
        rcases mem_setInsert.1 hy with h3 | h3
        · omega
        · exact hm y h3

theorem nodup_of_pairwise_lt {l : List Nat} (h : l.Pairwise (· < ·)) : l.Nodup :=
  h.imp (fun hlt => Nat.ne_of_lt hlt)

theorem mem_setErase {x n : Nat} {l : List Nat} :
    x ∈ setErase n l ↔ x ∈ l ∧ x ≠ n := by
  simp [setErase, List.mem_filter]

theorem setErase_eq_self {n : Nat} {l : List Nat} (h : n ∉ l) : setErase n l = l := by
  rw [setErase, List.filter_eq_self]
  intro a ha
  simp only [bne_iff_ne, ne_eq]
  intro he
  exact h (he ▸ ha)

theorem mem_eraseFold {x : Nat} :
    ∀ (removed : List Nat) (L : List Nat),
      x ∈ removed.foldl (fun s n => setErase n s) L ↔ x ∈ L ∧ x ∉ removed := by
  intro removed
  induction removed with
  | nil => intro L; simp
  | cons r rs ih =>
    intro L
    rw [List.foldl_cons, ih, mem_setErase]
    simp only [List.mem_cons]
    tauto

theorem eraseFold_filter :
    ∀ (removed : List Nat) (L : List Nat),
      removed.foldl (fun s n => setErase n s) L =
        L.filter (fun x => !removed.contains x) := by
  intro removed
  induction removed with
  | nil =>
    intro L
    rw [List.foldl_nil]
    symm
    rw [List.filter_eq_self]
    intro a _
    simp
  | cons r rs ih =>
    intro L
    rw [List.foldl_cons, ih, setErase, List.filter_filter]
    apply List.filter_congr
    intro x _
    by_cases h1 : x = r
    · subst h1
      simp
    · by_cases h2 : rs.contains x
      · simp [h1, h2]
      · simp [h1, h2]

theorem alookup_tsSet {k n t : Nat} :
    ∀ {m : List (Nat × Nat)},
      alookup k (tsSet n t m) = if k = n then some t else alookup k m := by
  intro m
  induction m with
  | nil =>
    by_cases hk : k = n
    · subst hk; simp [tsSet, alookup]
    · simp [tsSet, alookup, hk, beq_false_of_ne (by omega : ¬(n = k))]
  | cons p rest ih =>
    by_cases hpn : p.1 = n
    · rw [tsSet, if_pos (by simpa using hpn)]
      by_cases hk : k = n
      · subst hk
        rw [alookup, if_pos (by simp), if_pos rfl]
      · rw [alookup, if_neg (by simpa using (by omega : ¬(n = k))), if_neg hk,
            alookup, if_neg (by simpa using (by omega : ¬(p.1 = k)))]
    · rw [tsSet, if_neg (by simpa using hpn)]
      by_cases hpk : p.1 = k
      · have hk : ¬k = n := by omega
        rw [alookup, if_pos (by simpa using hpk), if_neg hk, alookup,
            if_pos (by simpa using hpk)]
      · rw [alookup, if_neg (by simpa using hpk), ih]
        by_cases hk : k = n
        · rw [if_pos hk, if_pos hk]
        · rw [if_neg hk, if_neg hk, alookup, if_neg (by simpa using hpk)]

theorem tsSet_of_none {n t : Nat} :
    ∀ {m : List (Nat × Nat)}, alookup n m = none → tsSet n t m = m ++ [(n, t)] := by
  intro m
  induction m with
  | nil => intro _; rfl
  | cons p rest ih =>
    intro h
    by_cases hpn : p.1 = n
    · rw [alookup, if_pos (by simpa using hpn)] at h
      cases h
    · rw [alookup, if_neg (by simpa using hpn)] at h
      rw [tsSet, if_neg (by simpa using hpn), List.cons_append, ih h]

theorem tsSet_map_fst_of_some {n t : Nat} :
    ∀ {m : List (Nat × Nat)}, (alookup n m).isSome = true →
      (tsSet n t m).map Prod.fst = m.map Prod.fst := by
  intro m
  induction m with
  | nil => intro h; exact absurd h (by simp [alookup])
  | cons p rest ih =>
    intro h
    by_cases hpn : p.1 = n
    · rw [tsSet, if_pos (by simpa using hpn)]
      simp [hpn]
    · rw [alookup, if_neg (by simpa using hpn)] at h
      rw [tsSet, if_neg (by simpa using hpn), List.map_cons, List.map_cons, ih h]

theorem tsSet_nodup {n t : Nat} {m : List (Nat × Nat)}
    (h : (m.map Prod.fst).Nodup) : ((tsSet n t m).map Prod.fst).Nodup := by
  rcases hs : alookup n m with _ | v
  · rw [tsSet_of_none hs, List.map_append]
    rw [List.nodup_append]
    refine ⟨h, by simp, ?_⟩
    intro a ha hb
    simp only [List.map_cons, List.map_nil, List.mem_singleton] at hb
    subst hb
    rcases List.mem_map.1 ha with ⟨p, hp, hpa⟩
    exact alookup_eq_none_iff.1 hs p hp hpa
  · rw [tsSet_map_fst_of_some (by simp [hs])]
    exact h

theorem alookup_tsErase {k n : Nat} {m : List (Nat × Nat)} :
    alookup k (tsErase n m) = if k = n then none else alookup k m :=
  alookup_filter_key_ne

theorem alookup_tsEraseFold {k : Nat} :
    ∀ (removed : List Nat) (m : List (Nat × Nat)),
      alookup k (removed.foldl (fun m x => tsErase x m) m) =
        if k ∈ removed then none else alookup k m := by
  intro removed
  induction removed with
  | nil => intro m; simp
  | cons r rs ih =>
    intro m
    rw [List.foldl_cons, ih]
    by_cases h1 : k = r
    · subst h1
      rw [if_pos (List.mem_cons_self _ _)]
      by_cases h2 : k ∈ rs
      · rw [if_pos h2]
      · rw [if_neg h2, alookup_tsErase, if_pos rfl]
    · by_cases h2 : k ∈ rs
      · rw [if_pos h2, if_pos (List.mem_cons.2 (Or.inr h2))]
      · rw [if_neg h2, if_neg (by simp [List.mem_cons, h1, h2]), alookup_tsErase,
            if_neg h1]

theorem tsEraseFold_map_fst_sublist :
    ∀ (removed : List Nat) (m : List (Nat × Nat)),
      ((removed.foldl (fun m x => tsErase x m) m).map Prod.fst).Sublist
        (m.map Prod.fst) := by
  intro removed
  induction removed with
  | nil => intro m; simp
  | cons r rs ih =>
    intro m
    rw [List.foldl_cons]
    exact (ih (tsErase r m)).trans ((List.filter_sublist m).map Prod.fst)

theorem foldlPreserve {α β : Type _} (f : β → α → β) (P : β → Prop) :
    ∀ (L : List α) (acc : β), (∀ acc x, x ∈ L → P acc → P (f acc x)) →
      P acc → P (L.foldl f acc) := by
  intro L
  induction L with
  | nil => intro acc _ h; exact h
  | cons x rest ih =>
    intro acc hstep h
    rw [List.foldl_cons]
    exact ih (f acc x) (fun a y hy ha => hstep a y (List.mem_cons_of_mem x hy) ha)
      (hstep acc x (List.mem_cons_self x rest) h)

/-! ### Graph-operation lemmas -/

theorem getNode_removeNode {g : Graph} {x k : NodeId} :
    (g.removeNode x).getNode k = if k = x then none else g.getNode k :=
  alookup_filter_key_ne

theorem hasNode_removeNode {g : Graph} {x k : NodeId} :
    (g.removeNode x).hasNode k = if k = x then false else g.hasNode k := by
  rw [Graph.hasNode, getNode_removeNode]
  by_cases h : k = x
  · rw [if_pos h, if_pos h]; rfl
  · rw [if_neg h, if_neg h]; rfl

theorem meshEdges_removeNode {g : Graph} {x : NodeId} :
    (g.removeNode x).meshEdges = g.meshEdges := rfl

theorem getNode_insertMeshEdge {g : Graph} {n : NodeId} {i k : Nat} :
    (g.insertMeshEdge n i).getNode k = g.getNode k := rfl

theorem nodes_insertFold {n : NodeId} :
    ∀ (L : List Nat) (g : Graph),
      (L.foldl (fun g i => g.insertMeshEdge n i) g).nodes = g.nodes := by
  intro L
  induction L with
  | nil => intro g; rfl
  | cons i rest ih => intro g; rw [List.foldl_cons, ih]; rfl

theorem getNode_insertFold {n : NodeId} {L : List Nat} {g : Graph} {k : NodeId} :
    (L.foldl (fun g i => g.insertMeshEdge n i) g).getNode k = g.getNode k := by
  rw [Graph.getNode, nodes_insertFold]; rfl

theorem meshEdges_insertFold {n : NodeId} :
    ∀ (L : List Nat) (g : Graph),
      (L.foldl (fun g i => g.insertMeshEdge n i) g).meshEdges =
        g.meshEdges ++ L.map (fun i => (n, i)) := by
  intro L
  induction L with
  | nil => intro g; simp
  | cons i rest ih =>
    intro g
    rw [List.foldl_cons, ih]
    simp [Graph.insertMeshEdge]

theorem getNode_setAttrs {g : Graph} {n : NodeId} {a : ObjectAttrs} {k : NodeId} :
    (g.setAttrs n a).getNode k =
      if k = n then (g.getNode n).map (fun _ => a) else g.getNode k :=
  alookup_mapUpdate (fun _ => a) n k g.nodes

theorem hasNode_setAttrs {g : Graph} {n : NodeId} {a : ObjectAttrs} {k : NodeId} :
    (g.setAttrs n a).hasNode k = g.hasNode k := by
  rw [Graph.hasNode, getNode_setAttrs]
  by_cases h : k = n
  · subst h
    rw [if_pos rfl, Graph.hasNode]
    rcases g.getNode k with _ | v <;> rfl
  · rw [if_neg h]; rfl

theorem getNode_emplace_self {g : Graph} {n : NodeId} {a : ObjectAttrs}
    (h : g.hasNode n = false) : (g.emplaceNode n a).getNode n = some a := by
  rw [Graph.emplaceNode, if_neg (by simp [h])]
  have hn : alookup n g.nodes = none := by
    rw [Graph.hasNode, Graph.getNode] at h
    rcases hh : alookup n g.nodes with _ | v
    · rfl
    · rw [hh] at h; cases h
  show alookup n (g.nodes ++ [(n, a)]) = some a
  rw [alookup_append_of_none hn, alookup, if_pos (by simp)]

theorem alookup_append_of_some {α} {n : Nat} {v : α} {m2 : List (Nat × α)} :
    ∀ {m1 : List (Nat × α)}, alookup n m1 = some v →
      alookup n (m1 ++ m2) = some v := by
  intro m1
  induction m1 with
  | nil => intro h; cases h
  | cons p rest ih =>
    intro h
    by_cases hp : p.1 = n
    · rw [alookup, if_pos (by simpa using hp)] at h
      rw [List.cons_append, alookup, if_pos (by simpa using hp)]
      exact h
    · rw [alookup, if_neg (by simpa using hp)] at h
      rw [List.cons_append, alookup, if_neg (by simpa using hp)]
      exact ih h

theorem getNode_emplace_other {g : Graph} {n : NodeId} {a : ObjectAttrs} {k : NodeId}
    (h : k ≠ n) : (g.emplaceNode n a).getNode k = g.getNode k := by
  rw [Graph.emplaceNode]
  by_cases hh : g.hasNode n
  · rw [if_pos hh]
  · rw [if_neg hh]
    show alookup k (g.nodes ++ [(n, a)]) = g.getNode k
    rcases hk : alookup k g.nodes with _ | v
    · rw [alookup_append_of_none hk, alookup,
          if_neg (by simp only [beq_iff_eq]; exact fun he => h he.symm)]
      exact hk.symm
    · rw [alookup_append_of_some hk, Graph.getNode, hk]

theorem hasNode_emplace_self {g : Graph} {n : NodeId} {a : ObjectAttrs} :
    (g.emplaceNode n a).hasNode n = true := by
  rcases hh : g.hasNode n
  · rw [Graph.hasNode, getNode_emplace_self hh]; rfl
  · rw [Graph.emplaceNode, if_pos hh]; exact hh

theorem hasNode_emplace_mono {g : Graph} {n : NodeId} {a : ObjectAttrs} {k : NodeId}
    (h : g.hasNode k = true) : (g.emplaceNode n a).hasNode k = true := by
  by_cases hk : k = n
  · subst hk; exact hasNode_emplace_self
  · rw [Graph.hasNode, getNode_emplace_other hk]; exact h

/-! ### Archive-scan lemmas -/

theorem archiveScan_nil {g : Graph} {cfg : Config} {tst : List (Nat × Nat)}
    {ts : Nat} {acc : List Nat × List Nat} :
    archiveScan g cfg tst ts [] acc = acc := rfl

theorem archiveScan_cons {g : Graph} {cfg : Config} {tst : List (Nat × Nat)}
    {ts : Nat} {n : Nat} {L : List Nat} {acc : List Nat × List Nat} :
    archiveScan g cfg tst ts (n :: L) acc =
      archiveScan g cfg tst ts L (archiveStep g cfg tst ts acc n) := rfl

theorem archiveStep_fst_mem {g : Graph} {cfg : Config} {tst : List (Nat × Nat)}
    {ts : Nat} {acc : List Nat × List Nat} {n x : Nat} :
    x ∈ (archiveStep g cfg tst ts acc n).1 ↔
      x ∈ acc.1 ∨ (x = n ∧ badFor g cfg tst ts n = true) := by
  rw [archiveStep, badFor]
  rcases hhn : g.hasNode n <;> rcases hov : overdue cfg tst ts n <;>
    simp only [hhn, hov, Bool.not_false, Bool.not_true, Bool.false_or,
      Bool.true_or, Bool.or_false, Bool.false_eq_true, if_true, if_false,
      List.mem_append, List.mem_singleton] <;> tauto

theorem archiveStep_snd_mem {g : Graph} {cfg : Config} {tst : List (Nat × Nat)}
    {ts : Nat} {acc : List Nat × List Nat} {n x : Nat} :
    x ∈ (archiveStep g cfg tst ts acc n).2 ↔
      x ∈ acc.2 ∨ (x = n ∧ overdue cfg tst ts n = true) := by
  rw [archiveStep]
  rcases hov : overdue cfg tst ts n <;>
    rcases hhn : g.hasNode n <;>
    simp only [hov, hhn, Bool.false_eq_true, if_true, if_false,
      mem_setInsert] <;> tauto

theorem archiveStep_noop {g : Graph} {cfg : Config} {tst : List (Nat × Nat)}
    {ts : Nat} {acc : List Nat × List Nat} {n : Nat}
    (h1 : g.hasNode n = true) (h2 : overdue cfg tst ts n = false) :
    archiveStep g cfg tst ts acc n = acc := by
  rw [archiveStep]
  simp [h1, h2]

theorem archiveScan_noop {g : Graph} {cfg : Config} {tst : List (Nat × Nat)} {ts : Nat} :
    ∀ (L : List Nat) (acc : List Nat × List Nat),
      (∀ n ∈ L, g.hasNode n = true ∧ overdue cfg tst ts n = false) →
      archiveScan g cfg tst ts L acc = acc := by
  intro L
  induction L with
  | nil => intro acc _; rfl
  | cons n rest ih =>
    intro acc h
    rcases h n (List.mem_cons_self n rest) with ⟨h1, h2⟩
    rw [archiveScan_cons, archiveStep_noop h1 h2]
    exact ih acc (fun m hm => h m (List.mem_cons_of_mem n hm))

theorem archiveScan_fst_mem {g : Graph} {cfg : Config} {tst : List (Nat × Nat)}
    {ts : Nat} {x : Nat} :
    ∀ (L : List Nat) (acc : List Nat × List Nat),
      x ∈ (archiveScan g cfg tst ts L acc).1 ↔
        x ∈ acc.1 ∨ (x ∈ L ∧ badFor g cfg tst ts x = true) := by
  intro L
  induction L with
  | nil => intro acc; rw [archiveScan_nil]; simp
  | cons n rest ih =>
    intro acc
    rw [archiveScan_cons, ih, archiveStep_fst_mem]
    simp only [List.mem_cons]
    constructor
    · rintro ((h | ⟨h, hb⟩) | ⟨h, hb⟩)
      · exact Or.inl h
      · subst h; exact Or.inr ⟨Or.inl rfl, hb⟩
      · exact Or.inr ⟨Or.inr h, hb⟩
    · rintro (h | ⟨(h | h), hb⟩)
      · exact Or.inl (Or.inl h)
      · subst h; exact Or.inl (Or.inr ⟨rfl, hb⟩)
      · exact Or.inr ⟨h, hb⟩

theorem archiveScan_snd_mem {g : Graph} {cfg : Config} {tst : List (Nat × Nat)}
    {ts : Nat} {x : Nat} :
    ∀ (L : List Nat) (acc : List Nat × List Nat),
      x ∈ (archiveScan g cfg tst ts L acc).2 ↔
        x ∈ acc.2 ∨ (x ∈ L ∧ overdue cfg tst ts x = true) := by
  intro L
  induction L with
  | nil => intro acc; rw [archiveScan_nil]; simp
  | cons n rest ih =>
    intro acc
    rw [archiveScan_cons, ih, archiveStep_snd_mem]
    simp only [List.mem_cons]
    constructor
    · rintro ((h | ⟨h, hb⟩) | ⟨h, hb⟩)
      · exact Or.inl h
      · subst h; exact Or.inr ⟨Or.inl rfl, hb⟩
      · exact Or.inr ⟨Or.inr h, hb⟩
    · rintro (h | ⟨(h | h), hb⟩)
      · exact Or.inl (Or.inl h)
      · subst h; exact Or.inl (Or.inr ⟨rfl, hb⟩)
      · exact Or.inr ⟨h, hb⟩

theorem archiveScan_snd_pairwise {g : Graph} {cfg : Config} {tst : List (Nat × Nat)}
    {ts : Nat} :
    ∀ (L : List Nat) (acc : List Nat × List Nat),
      acc.2.Pairwise (· < ·) → (archiveScan g cfg tst ts L acc).2.Pairwise (· < ·) := by
  intro L
  induction L with
  | nil => intro acc h; exact h
  | cons n rest ih =>
    intro acc h
    rw [archiveScan_cons]
    refine ih _ ?_
    rw [archiveStep]
    rcases hov : overdue cfg tst ts n
    · simp only [hov, Bool.false_eq_true, if_false]
      exact h
    · simp only [hov, if_true]
      exact pairwise_setInsert h

/-! ### Per-label archive-pass lemmas -/

theorem alookup_alUpdate {label k : Nat} {f : List Nat → List Nat}
    {m : List (Nat × List Nat)} :
    alookup k (alUpdate label f m) =
      if k = label then (alookup label m).map f else alookup k m :=
  alookup_mapUpdate f label k m

theorem alUpdate_map_fst {label : Nat} {f : List Nat → List Nat}
    {m : List (Nat × List Nat)} :
    (alUpdate label f m).map Prod.fst = m.map Prod.fst :=
  mapUpdate_map_fst f label m

theorem archivePass_toCheck {g : Graph} {cfg : Config} {ts : Nat}
    {acc : SegState × List Nat} {label : Nat} :
    (archivePassLabel g cfg ts acc label).1.toCheck = acc.1.toCheck := rfl

theorem archivePass_nextId {g : Graph} {cfg : Config} {ts : Nat}
    {acc : SegState × List Nat} {label : Nat} :
    (archivePassLabel g cfg ts acc label).1.nextId = acc.1.nextId := rfl

theorem archivePass_keys {g : Graph} {cfg : Config} {ts : Nat}
    {acc : SegState × List Nat} {label : Nat} :
    (archivePassLabel g cfg ts acc label).1.active.map Prod.fst =
      acc.1.active.map Prod.fst := by
  simp only [archivePassLabel]
  exact alUpdate_map_fst

theorem removedMem {g : Graph} {cfg : Config} {ts : Nat} {st : SegState}
    {ar : List Nat} {label x : Nat} :
    x ∈ (archiveScan g cfg st.tstamps ts (alLookupD label [] st.active) ([], ar)).1 ↔
      x ∈ alLookupD label [] st.active ∧ badFor g cfg st.tstamps ts x = true := by
  rw [archiveScan_fst_mem]
  simp

theorem archivePass_active_self {g : Graph} {cfg : Config} {ts : Nat} {st : SegState}
    {ar : List Nat} {label : Nat} :
    alLookupD label [] (archivePassLabel g cfg ts (st, ar) label).1.active =
      (alLookupD label [] st.active).filter
        (fun n => !badFor g cfg st.tstamps ts n) := by
  simp only [archivePassLabel]
  rw [alLookupD, alookup_alUpdate, if_pos rfl]
  rcases hv : alookup label st.active with _ | v
  · simp only [Option.map_none', Option.getD_none]
    have : alLookupD label [] st.active = [] := by
      rw [alLookupD, hv]; rfl
    rw [this, List.filter_nil]
  · have hL : alLookupD label [] st.active = v := by
      rw [alLookupD, hv]; rfl
    simp only [Option.map_some', Option.getD_some]
    rw [eraseFold_filter]
    conv_rhs => rw [hL]
    apply List.filter_congr
    intro x hx
    have hxL : x ∈ alLookupD label [] st.active := by rw [hL]; exact hx
    have hc : ((archiveScan g cfg st.tstamps ts (alLookupD label [] st.active)
        ([], ar)).1.contains x) = badFor g cfg st.tstamps ts x := by
      rcases hb : badFor g cfg st.tstamps ts x
      · rcases hcc : ((archiveScan g cfg st.tstamps ts (alLookupD label [] st.active)
            ([], ar)).1.contains x)
        · rfl
        · have := removedMem.1 (List.elem_iff.1 hcc)
          rw [hb] at this
          exact absurd this.2 (by simp)
      · exact List.elem_iff.2 (removedMem.2 ⟨hxL, hb⟩)
    rw [hc]

theorem archivePass_active_ne {g : Graph} {cfg : Config} {ts : Nat} {st : SegState}
    {ar : List Nat} {label l : Nat} (h : l ≠ label) :
    alLookupD l [] (archivePassLabel g cfg ts (st, ar) label).1.active =
      alLookupD l [] st.active := by
  simp only [archivePassLabel]
  rw [alLookupD, alookup_alUpdate, if_neg h, alLookupD]

theorem archivePass_tstamps {g : Graph} {cfg : Config} {ts : Nat} {st : SegState}
    {ar : List Nat} {label n : Nat} :
    alookup n (archivePassLabel g cfg ts (st, ar) label).1.tstamps =
      if n ∈ alLookupD label [] st.active ∧ badFor g cfg st.tstamps ts n = true
      then none else alookup n st.tstamps := by
  simp only [archivePassLabel]
  rw [alookup_tsEraseFold]
  by_cases h : n ∈ alLookupD label [] st.active ∧ badFor g cfg st.tstamps ts n = true
  · rw [if_pos h, if_pos (removedMem.2 h)]
  · rw [if_neg h, if_neg (fun hc => h (removedMem.1 hc))]

theorem archivePass_snd_mem {g : Graph} {cfg : Config} {ts : Nat} {st : SegState}
    {ar : List Nat} {label x : Nat} :
    x ∈ (archivePassLabel g cfg ts (st, ar) label).2 ↔
      x ∈ ar ∨ (x ∈ alLookupD label [] st.active ∧
        overdue cfg st.tstamps ts x = true) := by
  simp only [archivePassLabel]
  rw [archiveScan_snd_mem]

theorem archivePass_snd_pairwise {g : Graph} {cfg : Config} {ts : Nat} {st : SegState}
    {ar : List Nat} {label : Nat} (h : ar.Pairwise (· < ·)) :
    (archivePassLabel g cfg ts (st, ar) label).2.Pairwise (· < ·) := by
  simp only [archivePassLabel]
  exact archiveScan_snd_pairwise _ _ h

theorem archivePass_noop {g : Graph} {cfg : Config} {ts : Nat} {st : SegState}
    {ar : List Nat} {label : Nat}
    (h : ∀ n ∈ alLookupD label [] st.active,
      g.hasNode n = true ∧ overdue cfg st.tstamps ts n = false) :
    archivePassLabel g cfg ts (st, ar) label = (st, ar) := by
  simp only [archivePassLabel]
  rw [archiveScan_noop _ _ h]
  simp only [List.foldl_nil]
  have hmap : alUpdate label (fun s => s) st.active = st.active :=
    mapUpdate_congr_id (fun s => s) label st.active (fun _ _ _ => rfl)
  rw [hmap]

/-! ### Archive-pass fold specification -/

theorem archiveFold_spec (g : Graph) (cfg : Config) (ts : Nat) :
    ∀ (labels : List Nat), labels.Nodup →
    ∀ (st : SegState) (ar : List Nat),
      (∀ l1 l2, l1 ≠ l2 → ∀ x, x ∈ alLookupD l1 [] st.active →
        x ∉ alLookupD l2 [] st.active) →
      (∀ l ∈ labels,
        alLookupD l [] (labels.foldl (archivePassLabel g cfg ts) (st, ar)).1.active =
          (alLookupD l [] st.active).filter
            (fun n => !badFor g cfg st.tstamps ts n))
      ∧ (∀ l, l ∉ labels →
          alLookupD l [] (labels.foldl (archivePassLabel g cfg ts) (st, ar)).1.active =
            alLookupD l [] st.active)
      ∧ (∀ n, alookup n (labels.foldl (archivePassLabel g cfg ts) (st, ar)).1.tstamps =
          if ∃ l ∈ labels, n ∈ alLookupD l [] st.active ∧
              badFor g cfg st.tstamps ts n = true
          then none else alookup n st.tstamps)
      ∧ (∀ n, n ∈ (labels.foldl (archivePassLabel g cfg ts) (st, ar)).2 ↔
          n ∈ ar ∨ ∃ l ∈ labels, n ∈ alLookupD l [] st.active ∧
            overdue cfg st.tstamps ts n = true)
      ∧ (ar.Pairwise (· < ·) →
          (labels.foldl (archivePassLabel g cfg ts) (st, ar)).2.Pairwise (· < ·))
      ∧ (labels.foldl (archivePassLabel g cfg ts) (st, ar)).1.toCheck = st.toCheck
      ∧ (labels.foldl (archivePassLabel g cfg ts) (st, ar)).1.nextId = st.nextId
      ∧ (labels.foldl (archivePassLabel g cfg ts) (st, ar)).1.active.map Prod.fst =
          st.active.map Prod.fst := by
  intro labels
  induction labels with
  | nil =>
    intro _ st ar _
    refine ⟨by simp, fun l _ => rfl, fun n => by simp, fun n => by simp,
      fun h => h, rfl, rfl, rfl⟩
  | cons l0 rest ih =>
    intro hND st ar hdisj
    obtain ⟨hl0r, hNDr⟩ := List.nodup_cons.1 hND
    rcases hstep : archivePassLabel g cfg ts (st, ar) l0 with ⟨st1, ar1⟩
    have hS1 : alLookupD l0 [] st1.active =
        (alLookupD l0 [] st.active).filter
          (fun n => !badFor g cfg st.tstamps ts n) := by
      have h := @archivePass_active_self g cfg ts st ar l0
      rw [hstep] at h
      exact h
    have hS2 : ∀ l, l ≠ l0 → alLookupD l [] st1.active = alLookupD l [] st.active := by
      intro l hl
      have h := @archivePass_active_ne g cfg ts st ar l0 l hl
      rw [hstep] at h
      exact h
    have hS3 : ∀ n, alookup n st1.tstamps =
        if n ∈ alLookupD l0 [] st.active ∧ badFor g cfg st.tstamps ts n = true
        then none else alookup n st.tstamps := by
      intro n
      have h := @archivePass_tstamps g cfg ts st ar l0 n
      rw [hstep] at h
      exact h
    have hS4 : ∀ x, x ∈ ar1 ↔ x ∈ ar ∨ (x ∈ alLookupD l0 [] st.active ∧
        overdue cfg st.tstamps ts x = true) := by
      intro x
      have h := @archivePass_snd_mem g cfg ts st ar l0 x
      rw [hstep] at h
      exact h
    have hS5 : ar.Pairwise (· < ·) → ar1.Pairwise (· < ·) := by
      intro h
      have hh := @archivePass_snd_pairwise g cfg ts st ar l0 h
      rw [hstep] at hh
      exact hh
    have hS6 : st1.toCheck = st.toCheck := by
      have h := @archivePass_toCheck g cfg ts (st, ar) l0
      rw [hstep] at h
      exact h
    have hS7 : st1.nextId = st.nextId := by
      have h := @archivePass_nextId g cfg ts (st, ar) l0
      rw [hstep] at h
      exact h
    have hS8 : st1.active.map Prod.fst = st.active.map Prod.fst := by
      have h := @archivePass_keys g cfg ts (st, ar) l0
      rw [hstep] at h
      exact h
    have hsub : ∀ l x, x ∈ alLookupD l [] st1.active → x ∈ alLookupD l [] st.active := by
      intro l x hx
      by_cases hll : l = l0
      · subst hll
        rw [hS1] at hx
        exact (List.mem_filter.1 hx).1
      · rw [hS2 l hll] at hx
        exact hx
    have hdisj1 : ∀ l1 l2, l1 ≠ l2 → ∀ x, x ∈ alLookupD l1 [] st1.active →
        x ∉ alLookupD l2 [] st1.active :=
      fun l1 l2 hne x hx1 hx2 => hdisj l1 l2 hne x (hsub _ _ hx1) (hsub _ _ hx2)
    have hTR : ∀ l ∈ rest, ∀ n, n ∈ alLookupD l [] st.active →
        alookup n st1.tstamps = alookup n st.tstamps := by
      intro l hl n hn
      rw [hS3 n, if_neg]
      rintro ⟨hn0, _⟩
      have hne : l ≠ l0 := fun he => hl0r (he ▸ hl)
      exact hdisj l l0 hne n hn hn0
    have hTRbad : ∀ l ∈ rest, ∀ n ∈ alLookupD l [] st.active,
        badFor g cfg st1.tstamps ts n = badFor g cfg st.tstamps ts n := by
      intro l hl n hn
      rw [badFor, badFor, overdue, overdue, lookupD, lookupD, hTR l hl n hn]
    have hTRod : ∀ l ∈ rest, ∀ n ∈ alLookupD l [] st.active,
        overdue cfg st1.tstamps ts n = overdue cfg st.tstamps ts n := by
      intro l hl n hn
      rw [overdue, overdue, lookupD, lookupD, hTR l hl n hn]
    have ihr := ih hNDr st1 ar1 hdisj1
    rw [List.foldl_cons, hstep]
    refine ⟨?_, ?_, ?_, ?_, ?_, ?_, ?_, ?_⟩
    · intro l hl
      rcases List.mem_cons.1 hl with he | hr
      · subst he
        rw [ihr.2.1 l hl0r, hS1]
      · have hne : l ≠ l0 := fun he => hl0r (he ▸ hr)
        rw [ihr.1 l hr, hS2 l hne]
        apply List.filter_congr
        intro x hx
        rw [hTRbad l hr x hx]
    · intro l hl
      have h1 : l ≠ l0 := fun he => hl (he ▸ List.mem_cons_self l0 rest)
      have h2 : l ∉ rest := fun hr => hl (List.mem_cons_of_mem l0 hr)
      rw [ihr.2.1 l h2, hS2 l h1]
    · intro n
      rw [ihr.2.2.1 n]
      have hQiff : (∃ l ∈ rest, n ∈ alLookupD l [] st1.active ∧
          badFor g cfg st1.tstamps ts n = true) ↔
          (∃ l ∈ rest, n ∈ alLookupD l [] st.active ∧
            badFor g cfg st.tstamps ts n = true) := by
        constructor
        · rintro ⟨l, hl, hn, hb⟩
          have hne : l ≠ l0 := fun he => hl0r (he ▸ hl)
          rw [hS2 l hne] at hn
          exact ⟨l, hl, hn, by rw [← hTRbad l hl n hn]; exact hb⟩
        · rintro ⟨l, hl, hn, hb⟩
          have hne : l ≠ l0 := fun he => hl0r (he ▸ hl)
          refine ⟨l, hl, ?_, ?_⟩
          · rw [hS2 l hne]; exact hn
          · rw [hTRbad l hl n hn]; exact hb
      by_cases hP : n ∈ alLookupD l0 [] st.active ∧ badFor g cfg st.tstamps ts n = true
      · have h0 : alookup n st1.tstamps = none := by rw [hS3 n, if_pos hP]
        by_cases hQ : ∃ l ∈ rest, n ∈ alLookupD l [] st1.active ∧
            badFor g cfg st1.tstamps ts n = true
        · rw [if_pos hQ, if_pos ⟨l0, List.mem_cons_self l0 rest, hP.1, hP.2⟩]
        · rw [if_neg hQ, h0, if_pos ⟨l0, List.mem_cons_self l0 rest, hP.1, hP.2⟩]
      · have h0 : alookup n st1.tstamps = alookup n st.tstamps := by
          rw [hS3 n, if_neg hP]
        by_cases hQ : ∃ l ∈ rest, n ∈ alLookupD l [] st.active ∧
            badFor g cfg st.tstamps ts n = true
        · rcases hQ with ⟨l, hl, hn, hb⟩
          rw [if_pos (hQiff.2 ⟨l, hl, hn, hb⟩),
              if_pos ⟨l, List.mem_cons_of_mem l0 hl, hn, hb⟩]
        · rw [if_neg (fun hq => hQ (hQiff.1 hq)), h0, if_neg]
          rintro ⟨l, hl, hn, hb⟩
          rcases List.mem_cons.1 hl with he | hr
          · subst he; exact hP ⟨hn, hb⟩
          · exact hQ ⟨l, hr, hn, hb⟩
    · intro n
      rw [ihr.2.2.2.1 n]
      constructor
      · rintro (h1 | ⟨l, hl, hn, hb⟩)
        · rcases (hS4 n).1 h1 with h2 | ⟨hn0, hb0⟩
          · exact Or.inl h2
          · exact Or.inr ⟨l0, List.mem_cons_self l0 rest, hn0, hb0⟩
        · have hne : l ≠ l0 := fun he => hl0r (he ▸ hl)
          rw [hS2 l hne] at hn
          exact Or.inr ⟨l, List.mem_cons_of_mem l0 hl, hn,
            by rw [← hTRod l hl n hn]; exact hb⟩
      · rintro (h1 | ⟨l, hl, hn, hb⟩)
        · exact Or.inl ((hS4 n).2 (Or.inl h1))
        · rcases List.mem_cons.1 hl with he | hr
          · subst he
            exact Or.inl ((hS4 n).2 (Or.inr ⟨hn, hb⟩))
          · have hne : l ≠ l0 := fun he => hl0r (he ▸ hr)
            refine Or.inr ⟨l, hr, ?_, ?_⟩
            · rw [hS2 l hne]; exact hn
            · rw [hTRod l hr n hn]; exact hb
    · intro hpw
      exact ihr.2.2.2.2.1 (hS5 hpw)
    · rw [ihr.2.2.2.2.2.1, hS6]
    · rw [ihr.2.2.2.2.2.2.1, hS7]
    · rw [ihr.2.2.2.2.2.2.2, hS8]

theorem archiveFold_noop {g : Graph} {cfg : Config} {ts : Nat} :
    ∀ (labels : List Nat) (st : SegState) (ar : List Nat),
      (∀ l ∈ labels, ∀ n ∈ alLookupD l [] st.active,
        g.hasNode n = true ∧ overdue cfg st.tstamps ts n = false) →
      labels.foldl (archivePassLabel g cfg ts) (st, ar) = (st, ar) := by
  intro labels
  induction labels with
  | nil => intro st ar _; rfl
  | cons l0 rest ih =>
    intro st ar h
    rw [List.foldl_cons, archivePass_noop (h l0 (List.mem_cons_self l0 rest))]
    exact ih st ar (fun l hl => h l (List.mem_cons_of_mem l0 hl))

theorem badFor_false_iff {g : Graph} {cfg : Config} {tst : List (Nat × Nat)}
    {ts n : Nat} :
    badFor g cfg tst ts n = false ↔
      g.hasNode n = true ∧ overdue cfg tst ts n = false := by
  rw [badFor]
  rcases h1 : g.hasNode n <;> rcases h2 : overdue cfg tst ts n <;> simp

theorem archive_survivors_good {g : Graph} {cfg : Config} {st : SegState} {ts : Nat}
    (hND : cfg.labels.Nodup)
    (hdisj : ∀ l1 l2, l1 ≠ l2 → ∀ x, x ∈ alLookupD l1 [] st.active →
      x ∉ alLookupD l2 [] st.active) :
    ∀ l ∈ cfg.labels, ∀ n ∈ alLookupD l [] (archiveOldObjects g cfg st ts).1.active,
      g.hasNode n = true ∧
        overdue cfg (archiveOldObjects g cfg st ts).1.tstamps ts n = false := by
  have hspec := archiveFold_spec g cfg ts cfg.labels hND st [] hdisj
  intro l hl n hn
  rw [archiveOldObjects] at hn ⊢
  rw [hspec.1 l hl] at hn
  rcases List.mem_filter.1 hn with ⟨hnA, hbad⟩
  have hb : badFor g cfg st.tstamps ts n = false := by
    rcases h : badFor g cfg st.tstamps ts n
    · rfl
    · rw [h] at hbad; cases hbad
  rcases badFor_false_iff.1 hb with ⟨hhn, hov⟩
  refine ⟨hhn, ?_⟩
  have hts : alookup n (cfg.labels.foldl (archivePassLabel g cfg ts) (st, [])).1.tstamps =
      alookup n st.tstamps := by
    rw [hspec.2.2.1 n, if_neg]
    rintro ⟨l2, hl2, hn2, hb2⟩
    by_cases he : l2 = l
    · subst he
      rw [hb2] at hb
      cases hb
    · exact hdisj l2 l he n hn2 hnA
  rw [overdue, lookupD, hts]
  rw [overdue, lookupD] at hov
  exact hov

theorem archive_second_noop {g : Graph} {cfg : Config} {st : SegState} {ts : Nat}
    (hND : cfg.labels.Nodup)
    (hdisj : ∀ l1 l2, l1 ≠ l2 → ∀ x, x ∈ alLookupD l1 [] st.active →
      x ∉ alLookupD l2 [] st.active) :
    archiveOldObjects g cfg (archiveOldObjects g cfg st ts).1 ts =
      ((archiveOldObjects g cfg st ts).1, []) := by
  rw [archiveOldObjects]
  exact archiveFold_noop cfg.labels _ []
    (fun l hl n hn =>
      archive_survivors_good hND hdisj l hl n hn)

/-! ### Update / create / match lemmas -/

theorem update_tstamps_eq {ext : List MeshVertex → BoundingBox} {g : Graph}
    {c : Cluster} {nid : NodeId} {ts : Nat} {st : SegState} :
    (updateObjectInGraph ext g c nid ts st).2.tstamps = tsSet nid ts st.tstamps := by
  rw [updateObjectInGraph]
  rcases hn : (c.indices.foldl (fun g i => g.insertMeshEdge nid i) g).getNode nid with _ | attrs
  · simp only [hn]
  · simp only [hn]
    by_cases hv : (ext c.cloud).vol ≤ attrs.bounding_box.vol
    · rw [if_pos hv]
    · rw [if_neg hv]

theorem update_active_eq {ext : List MeshVertex → BoundingBox} {g : Graph}
    {c : Cluster} {nid : NodeId} {ts : Nat} {st : SegState} :
    (updateObjectInGraph ext g c nid ts st).2.active = st.active := by
  rw [updateObjectInGraph]
  rcases hn : (c.indices.foldl (fun g i => g.insertMeshEdge nid i) g).getNode nid with _ | attrs
  · simp only [hn]
  · simp only [hn]
    by_cases hv : (ext c.cloud).vol ≤ attrs.bounding_box.vol
    · rw [if_pos hv]
    · rw [if_neg hv]

theorem update_nextId_eq {ext : List MeshVertex → BoundingBox} {g : Graph}
    {c : Cluster} {nid : NodeId} {ts : Nat} {st : SegState} :
    (updateObjectInGraph ext g c nid ts st).2.nextId = st.nextId := by
  rw [updateObjectInGraph]
  rcases hn : (c.indices.foldl (fun g i => g.insertMeshEdge nid i) g).getNode nid with _ | attrs
  · simp only [hn]
  · simp only [hn]
    by_cases hv : (ext c.cloud).vol ≤ attrs.bounding_box.vol
    · rw [if_pos hv]
    · rw [if_neg hv]

theorem update_toCheck {ext : List MeshVertex → BoundingBox} {g : Graph}
    {c : Cluster} {nid : NodeId} {ts : Nat} {st : SegState} :
    (updateObjectInGraph ext g c nid ts st).2.toCheck = st.toCheck ∨
      (updateObjectInGraph ext g c nid ts st).2.toCheck = setInsert nid st.toCheck := by
  rw [updateObjectInGraph]
  rcases hn : (c.indices.foldl (fun g i => g.insertMeshEdge nid i) g).getNode nid with _ | attrs
  · simp only [hn]
    exact Or.inl trivial
  · simp only [hn]
    by_cases hv : (ext c.cloud).vol ≤ attrs.bounding_box.vol
    · rw [if_pos hv]; exact Or.inl rfl
    · rw [if_neg hv]; exact Or.inr rfl

theorem update_hasNode {ext : List MeshVertex → BoundingBox} {g : Graph}
    {c : Cluster} {nid : NodeId} {ts : Nat} {st : SegState} {k : NodeId} :
    (updateObjectInGraph ext g c nid ts st).1.hasNode k = g.hasNode k := by
  have hbase : (c.indices.foldl (fun g i => g.insertMeshEdge nid i) g).hasNode k =
      g.hasNode k := by
    rw [Graph.hasNode, getNode_insertFold]
    rfl
  rw [updateObjectInGraph]
  rcases hn : (c.indices.foldl (fun g i => g.insertMeshEdge nid i) g).getNode nid with _ | attrs
  · simp only [hn]
    exact hbase
  · simp only [hn]
    by_cases hv : (ext c.cloud).vol ≤ attrs.bounding_box.vol
    · rw [if_pos hv]
      exact hbase
    · rw [if_neg hv]
      show (Graph.setAttrs _ nid _).hasNode k = _
      rw [hasNode_setAttrs]
      exact hbase

theorem update_meshEdges {ext : List MeshVertex → BoundingBox} {g : Graph}
    {c : Cluster} {nid : NodeId} {ts : Nat} {st : SegState} :
    (updateObjectInGraph ext g c nid ts st).1.meshEdges =
      g.meshEdges ++ c.indices.map (fun i => (nid, i)) := by
  rw [updateObjectInGraph]
  rcases hn : (c.indices.foldl (fun g i => g.insertMeshEdge nid i) g).getNode nid with _ | attrs
  · simp only [hn]
    exact meshEdges_insertFold c.indices g
  · simp only [hn]
    by_cases hv : (ext c.cloud).vol ≤ attrs.bounding_box.vol
    · rw [if_pos hv]
      exact meshEdges_insertFold c.indices g
    · rw [if_neg hv]
      show (c.indices.foldl (fun g i => g.insertMeshEdge nid i) g).meshEdges = _
      exact meshEdges_insertFold c.indices g

theorem update_keep {ext : List MeshVertex → BoundingBox} {g : Graph}
    {c : Cluster} {nid : NodeId} {ts : Nat} {st : SegState} {attrs : ObjectAttrs}
    (hattrs : g.getNode nid = some attrs)
    (hv : (ext c.cloud).vol ≤ attrs.bounding_box.vol) :
    (updateObjectInGraph ext g c nid ts st).1.getNode nid = some attrs ∧
      (updateObjectInGraph ext g c nid ts st).2.toCheck = st.toCheck ∧
      (updateObjectInGraph ext g c nid ts st).1.nodes = g.nodes := by
  have hn : (c.indices.foldl (fun g i => g.insertMeshEdge nid i) g).getNode nid =
      some attrs := by
    rw [getNode_insertFold]
    exact hattrs
  rw [updateObjectInGraph]
  simp only [hn, if_pos hv]
  exact ⟨trivial, trivial, nodes_insertFold c.indices g⟩

theorem update_replace {ext : List MeshVertex → BoundingBox} {g : Graph}
    {c : Cluster} {nid : NodeId} {ts : Nat} {st : SegState} {attrs : ObjectAttrs}
    (hattrs : g.getNode nid = some attrs)
    (hv : attrs.bounding_box.vol < (ext c.cloud).vol) :
    (updateObjectInGraph ext g c nid ts st).1.getNode nid =
      some { attrs with position := c.centroid, bounding_box := ext c.cloud } ∧
      (updateObjectInGraph ext g c nid ts st).2.toCheck = setInsert nid st.toCheck := by
  have hn : (c.indices.foldl (fun g i => g.insertMeshEdge nid i) g).getNode nid =
      some attrs := by
    rw [getNode_insertFold]
    exact hattrs
  rw [updateObjectInGraph]
  simp only [hn, if_neg (not_le.2 hv)]
  constructor
  · rw [getNode_setAttrs, if_pos rfl, hn, Option.map_some']
  · trivial

theorem add_empty {ext : List MeshVertex → BoundingBox} {g : Graph} {c : Cluster}
    {label ts : Nat} {st : SegState} (h : c.cloud = []) :
    addObjectToGraph ext g c label ts st = (g, st) := by
  rw [addObjectToGraph, h]

theorem add_result {ext : List MeshVertex → BoundingBox} {g : Graph} {c : Cluster}
    {label ts : Nat} {st : SegState} {v : MeshVertex} {vs : List MeshVertex}
    (h : c.cloud = v :: vs) :
    addObjectToGraph ext g c label ts st =
      (c.indices.foldl (fun g i => g.insertMeshEdge st.nextId i)
        (g.emplaceNode st.nextId
          { semantic_label := label, name := st.nextId, bounding_box := ext c.cloud,
            color := v.color, position := c.centroid }),
       { active := alUpdate label (setInsert st.nextId) st.active,
         tstamps := tsSet st.nextId ts st.tstamps,
         toCheck := setInsert st.nextId st.toCheck,
         nextId := st.nextId + 1 }) := by
  rw [addObjectToGraph, h]

theorem find?_first {p : Nat → Bool} {a : Nat} :
    ∀ (l1 : List Nat) (l2 : List Nat), p a = true → (∀ x ∈ l1, p x = false) →
      (l1 ++ a :: l2).find? p = some a := by
  intro l1
  induction l1 with
  | nil =>
    intro l2 hp _
    rw [List.nil_append, List.find?_cons_of_pos _ hp]
  | cons x rest ih =>
    intro l2 hp hall
    rw [List.cons_append, List.find?_cons_of_neg]
    · exact ih l2 hp (fun y hy => hall y (List.mem_cons_of_mem x hy))
    · rw [hall x (List.mem_cons_self x rest)]
      simp

theorem processCluster_match {ext : List MeshVertex → BoundingBox} {label ts : Nat}
    {g : Graph} {st : SegState} {c : Cluster} {l1 l2 : List Nat} {a : NodeId}
    (hsplit : alLookupD label [] st.active = l1 ++ a :: l2)
    (hmatch : objectsMatchD g c a = true)
    (hbefore : ∀ x ∈ l1, objectsMatchD g c x = false) :
    processCluster ext label ts (g, st) c = updateObjectInGraph ext g c a ts st := by
  rw [processCluster]
  have hf : (alLookupD label [] st.active).find? (fun n => objectsMatchD g c n) =
      some a := by
    rw [hsplit]
    exact find?_first l1 l2 hmatch hbefore
  simp only [hf]

theorem processCluster_nomatch {ext : List MeshVertex → BoundingBox} {label ts : Nat}
    {g : Graph} {st : SegState} {c : Cluster}
    (h : ∀ x ∈ alLookupD label [] st.active, objectsMatchD g c x = false) :
    processCluster ext label ts (g, st) c = addObjectToGraph ext g c label ts st := by
  rw [processCluster]
  have hf : (alLookupD label [] st.active).find? (fun n => objectsMatchD g c n) =
      none :=
    List.find?_eq_none.2 (fun x hx => by rw [h x hx]; simp)
  simp only [hf]

/-! ### Dedup-pass and counter lemmas -/

theorem removeEverywhere_nextId {label x : Nat} {g : Graph} {st : SegState} :
    (removeEverywhere label x g st).2.nextId = st.nextId := rfl

theorem dedupInner_nextId {label nid : Nat} {na : ObjectAttrs}
    {acc : Graph × SegState} {other : Nat} :
    (dedupInner label nid na acc other).2.nextId = acc.2.nextId := by
  rw [dedupInner]
  by_cases h1 : other == nid
  · rw [if_pos h1]
  · rw [if_neg h1]
    rcases hg : acc.1.getNode other with _ | oa
    · simp only [hg]
    · simp only [hg]
      rcases h2 : na.bounding_box.contains oa.position || oa.bounding_box.contains na.position
      · simp only [h2, Bool.false_eq_true, if_false]
      · simp only [h2, if_true]
        by_cases h3 : oa.bounding_box.vol ≤ na.bounding_box.vol
        · rw [if_pos h3]
          exact removeEverywhere_nextId
        · rw [if_neg h3]
          exact removeEverywhere_nextId

theorem dedupOuter_nextId {label : Nat} {toCheck : List Nat}
    {acc : Graph × SegState} {nid : Nat} :
    (dedupOuter label toCheck acc nid).2.nextId = acc.2.nextId := by
  rw [dedupOuter]
  rcases hg : acc.1.getNode nid with _ | na
  · simp only [hg]
  · simp only [hg]
    refine foldlPreserve (dedupInner label nid na)
      (fun a => a.2.nextId = acc.2.nextId) toCheck acc ?_ rfl
    intro a x _ ha
    rw [dedupInner_nextId, ha]

theorem dedupLabel_nextId {label : Nat} {g : Graph} {st : SegState} :
    (dedupLabel label g st).2.nextId = st.nextId := by
  rw [dedupLabel]
  refine foldlPreserve (dedupOuter label (alLookupD label [] st.active))
    (fun a => a.2.nextId = st.nextId) (alLookupD label [] st.active) (g, st) ?_ rfl
  intro a x _ ha
  rw [dedupOuter_nextId, ha]

theorem add_nextId_le {ext : List MeshVertex → BoundingBox} {g : Graph} {c : Cluster}
    {label ts : Nat} {st : SegState} :
    st.nextId ≤ (addObjectToGraph ext g c label ts st).2.nextId := by
  rcases hc : c.cloud with _ | ⟨v, vs⟩
  · rw [add_empty hc]
  · rw [add_result hc]
    exact Nat.le_succ _

theorem processCluster_nextId_le {ext : List MeshVertex → BoundingBox}
    {label ts : Nat} {acc : Graph × SegState} {c : Cluster} :
    acc.2.nextId ≤ (processCluster ext label ts acc c).2.nextId := by
  rw [processCluster]
  rcases hf : (alLookupD label [] acc.2.active).find?
      (fun n => objectsMatchD acc.1 c n) with _ | nid
  · simp only [hf]
    exact add_nextId_le
  · simp only [hf]
    rw [update_nextId_eq]

theorem processLabel_nextId_le {ext : List MeshVertex → BoundingBox} {ts : Nat}
    {acc : Graph × SegState} {lc : Nat × List Cluster} :
    acc.2.nextId ≤ (processLabel ext ts acc lc).2.nextId := by
  rw [processLabel]
  have h1 : acc.2.nextId ≤ (lc.2.foldl (processCluster ext lc.1 ts) acc).2.nextId := by
    refine foldlPreserve (processCluster ext lc.1 ts)
      (fun a => acc.2.nextId ≤ a.2.nextId) lc.2 acc ?_ (Nat.le_refl _)
    intro a x _ ha
    exact ha.trans processCluster_nextId_le
  rw [dedupLabel_nextId]
  exact h1

theorem archiveFold_nextId {g : Graph} {cfg : Config} {ts : Nat}
    {labels : List Nat} {st : SegState} {ar : List Nat} :
    (labels.foldl (archivePassLabel g cfg ts) (st, ar)).1.nextId = st.nextId := by
  refine foldlPreserve (archivePassLabel g cfg ts)
    (fun a => a.1.nextId = st.nextId) labels (st, ar) ?_ rfl
  intro a x _ ha
  rw [archivePass_nextId, ha]

theorem archiveFold_toCheck {g : Graph} {cfg : Config} {ts : Nat}
    {labels : List Nat} {st : SegState} {ar : List Nat} :
    (labels.foldl (archivePassLabel g cfg ts) (st, ar)).1.toCheck = st.toCheck := by
  refine foldlPreserve (archivePassLabel g cfg ts)
    (fun a => a.1.toCheck = st.toCheck) labels (st, ar) ?_ rfl
  intro a x _ ha
  rw [archivePass_toCheck, ha]

theorem updateGraph_nextId_le {cfg : Config} {ext : List MeshVertex → BoundingBox}
    {g : Graph} {clusters : List (Nat × List Cluster)} {ts : Nat} {st : SegState} :
    st.nextId ≤ (updateGraph cfg ext g clusters ts st).2.1.nextId := by
  rw [updateGraph]
  have h0 : (archiveOldObjects g cfg st ts).1.nextId = st.nextId := by
    rw [archiveOldObjects]
    exact archiveFold_nextId
  have h1 : st.nextId ≤
      (clusters.foldl (processLabel ext ts) (g, (archiveOldObjects g cfg st ts).1)).2.nextId := by
    refine foldlPreserve (processLabel ext ts)
      (fun a => st.nextId ≤ a.2.nextId) clusters
      (g, (archiveOldObjects g cfg st ts).1) ?_ (le_of_eq h0.symm)
    intro a x _ ha
    exact ha.trans processLabel_nextId_le
  exact h1

theorem updateGraph_nil {cfg : Config} {ext : List MeshVertex → BoundingBox}
    {g : Graph} {ts : Nat} {st : SegState} :
    updateGraph cfg ext g [] ts st =
      (g, (archiveOldObjects g cfg st ts).1, (archiveOldObjects g cfg st ts).2) := rfl

theorem ldisj_of_actDisjoint {m : List (Nat × List Nat)} (h : ActDisjoint m) :
    ∀ l1 l2, l1 ≠ l2 → ∀ x, x ∈ alLookupD l1 [] m → x ∉ alLookupD l2 [] m := by
  intro l1 l2 hne x hx1 hx2
  rcases h1 : alookup l1 m with _ | v1
  · rw [alLookupD, h1] at hx1
    cases hx1
  · rcases h2 : alookup l2 m with _ | v2
    · rw [alLookupD, h2] at hx2
      cases hx2
    · rw [alLookupD, h1] at hx1
      rw [alLookupD, h2] at hx2
      exact h (l1, v1) (alookup_mem h1) (l2, v2) (alookup_mem h2) hne x hx1 hx2

/-! ### Claim theorems: archive pass -/

/-- C1 (corrected): in the archive pass, an identifier satisfying either removal
reason — vanished node (a) or age over horizon (b) — is pruned from the active
index and the timestamp map, and a doubly-inserted identifier causes no error
and is archived exactly once (the returned set has no duplicates); but ONLY the
identifiers failing the age test are collected into the returned archived set —
an identifier removed solely because its node vanished does not appear in it
(contrary to the claim as stated, refuted by `C1_counterexample`). -/
theorem C1_archive_semantics (g : Graph) (cfg : Config) (st : SegState)
    (ts label n : Nat)
    (hND : cfg.labels.Nodup) (hdisj : ActDisjoint st.active)
    (hl : label ∈ cfg.labels) (hn : n ∈ alLookupD label [] st.active) :
    (badFor g cfg st.tstamps ts n = true →
      n ∉ alLookupD label [] (archiveOldObjects g cfg st ts).1.active ∧
        alookup n (archiveOldObjects g cfg st ts).1.tstamps = none)
    ∧ (overdue cfg st.tstamps ts n = true →
        n ∈ (archiveOldObjects g cfg st ts).2)
    ∧ (overdue cfg st.tstamps ts n = false →
        n ∉ (archiveOldObjects g cfg st ts).2)
    ∧ (archiveOldObjects g cfg st ts).2.Nodup := by
  have hspec := archiveFold_spec g cfg ts cfg.labels hND st []
    (ldisj_of_actDisjoint hdisj)
  rw [archiveOldObjects]
  refine ⟨?_, ?_, ?_, ?_⟩
  · intro hb
    constructor
    · rw [hspec.1 label hl]
      intro hmem
      rcases List.mem_filter.1 hmem with ⟨_, hbf⟩
      rw [hb] at hbf
      cases hbf
    · rw [hspec.2.2.1 n, if_pos ⟨label, hl, hn, hb⟩]
  · intro hov
    exact (hspec.2.2.2.1 n).2 (Or.inr ⟨label, hl, hn, hov⟩)
  · intro hov hmem
    rcases (hspec.2.2.2.1 n).1 hmem with h | ⟨l2, hl2, hn2, hov2⟩
    · cases h
    · by_cases he : l2 = label
      · subst he
        rw [hov] at hov2
        cases hov2
      · exact ldisj_of_actDisjoint hdisj l2 label he n hn2 hn
  · exact nodup_of_pairwise_lt (hspec.2.2.2.2.1 (List.Pairwise.nil))

/-- C8 (confirmed): calling `updateGraph` (the body of `reconcile`) a second
time with the same timestamp and empty LabelClusters performs no mutation
beyond the first call: the graph and the whole bookkeeping state are returned
unchanged and the second archived set is empty. -/
theorem C8_reconcile_idempotent (cfg : Config) (ext : List MeshVertex → BoundingBox)
    (g : Graph) (st : SegState) (ts : Nat)
    (hND : cfg.labels.Nodup) (hdisj : ActDisjoint st.active) :
    updateGraph cfg ext (updateGraph cfg ext g [] ts st).1 [] ts
        (updateGraph cfg ext g [] ts st).2.1 =
      ((updateGraph cfg ext g [] ts st).1,
       (updateGraph cfg ext g [] ts st).2.1, []) := by
  have h1 : (updateGraph cfg ext g [] ts st).1 = g := rfl
  have h2 : (updateGraph cfg ext g [] ts st).2.1 =
      (archiveOldObjects g cfg st ts).1 := rfl
  rw [h1, h2, updateGraph_nil,
    archive_second_noop hND (ldisj_of_actDisjoint hdisj)]

/-- C10 (confirmed): the archive-age test uses wrapping unsigned 64-bit
subtraction, so when an active identifier's last-observed timestamp exceeds the
cycle timestamp (with both below `2^64` and the wrapped difference beyond the
horizon, as for any realistic horizon), the subtraction wraps modulo `2^64`
and the identifier is archived immediately. -/
theorem C10_timestamp_wraparound (g : Graph) (cfg : Config) (st : SegState)
    (ts n tLast label : Nat)
    (hND : cfg.labels.Nodup) (hdisj : ActDisjoint st.active)
    (hl : label ∈ cfg.labels) (hn : n ∈ alLookupD label [] st.active)
    (hts : alookup n st.tstamps = some tLast)
    (hgt : ts < tLast) (hlt : tLast < 2 ^ 64)
    (hroom : tLast - ts < 2 ^ 64 - cfg.horizon) :
    usub64 ts tLast = 2 ^ 64 - (tLast - ts)
    ∧ overdue cfg st.tstamps ts n = true
    ∧ n ∈ (archiveOldObjects g cfg st ts).2 := by
  have hu : usub64 ts tLast = 2 ^ 64 - (tLast - ts) := by
    rw [usub64]
    have he : ts + 2 ^ 64 - tLast = 2 ^ 64 - (tLast - ts) := by omega
    rw [he]
    exact Nat.mod_eq_of_lt (by omega)
  have hov : overdue cfg st.tstamps ts n = true := by
    rw [overdue, lookupD, hts, Option.getD_some, decide_eq_true_eq, hu]
    omega
  refine ⟨hu, hov, ?_⟩
  have hspec := archiveFold_spec g cfg ts cfg.labels hND st []
    (ldisj_of_actDisjoint hdisj)
  rw [archiveOldObjects]
  exact (hspec.2.2.2.1 n).2 (Or.inr ⟨label, hl, hn, hov⟩)

/-! ### Claim theorems: update, match, create -/

/-- C3 (confirmed): updating a matched object refreshes its timestamp
unconditionally and attaches every cluster vertex as a directed mesh edge
regardless of the box comparison; position, box and the pending-linkage set are
touched only when the candidate box volume strictly exceeds the existing one —
on a smaller-or-equal candidate the node attributes are left untouched. -/
theorem C3_update_semantics (ext : List MeshVertex → BoundingBox) (g : Graph)
    (c : Cluster) (nid : NodeId) (ts : Nat) (st : SegState) (attrs : ObjectAttrs)
    (hattrs : g.getNode nid = some attrs) :
    alookup nid (updateObjectInGraph ext g c nid ts st).2.tstamps = some ts
    ∧ (∀ i ∈ c.indices, (nid, i) ∈ (updateObjectInGraph ext g c nid ts st).1.meshEdges)
    ∧ ((ext c.cloud).vol ≤ attrs.bounding_box.vol →
        (updateObjectInGraph ext g c nid ts st).1.getNode nid = some attrs ∧
          (updateObjectInGraph ext g c nid ts st).2.toCheck = st.toCheck ∧
          (updateObjectInGraph ext g c nid ts st).1.nodes = g.nodes)
    ∧ (attrs.bounding_box.vol < (ext c.cloud).vol →
        (updateObjectInGraph ext g c nid ts st).1.getNode nid =
          some { attrs with position := c.centroid, bounding_box := ext c.cloud } ∧
          nid ∈ (updateObjectInGraph ext g c nid ts st).2.toCheck) := by
  refine ⟨?_, ?_, ?_, ?_⟩
  · rw [update_tstamps_eq, alookup_tsSet, if_pos rfl]
  · intro i hi
    rw [update_meshEdges]
    exact List.mem_append.2 (Or.inr (List.mem_map.2 ⟨i, hi, rfl⟩))
  · intro hv
    exact update_keep hattrs hv
  · intro hv
    rcases @update_replace ext g c nid ts st attrs hattrs hv with ⟨hg, ht⟩
    refine ⟨hg, ?_⟩
    rw [ht]
    exact mem_setInsert.2 (Or.inl rfl)

/-- C7 (confirmed): the match scan over a label's active identifiers is
first-match — the scan stops at the first identifier (in the set's fixed
ascending enumeration order) whose box contains the cluster centroid, even when
a later identifier also matches — and falls back to object creation when no
active identifier matches. -/
theorem C7_first_match (ext : List MeshVertex → BoundingBox) (label ts : Nat)
    (g : Graph) (st : SegState) (c : Cluster) :
    (∀ (l1 : List Nat) (a : NodeId) (l2 : List Nat),
      alLookupD label [] st.active = l1 ++ a :: l2 →
      objectsMatchD g c a = true →
      (∀ x ∈ l1, objectsMatchD g c x = false) →
      processCluster ext label ts (g, st) c = updateObjectInGraph ext g c a ts st)
    ∧ ((∀ x ∈ alLookupD label [] st.active, objectsMatchD g c x = false) →
        processCluster ext label ts (g, st) c = addObjectToGraph ext g c label ts st) :=
  ⟨fun _ _ _ h1 h2 h3 => processCluster_match h1 h2 h3,
   fun h => processCluster_nomatch h⟩

/-- C9 (confirmed): object identifiers come from a strictly monotonic per-run
counter: a rejected empty-cluster create changes nothing, a successful create
allocates exactly the current counter value (a value never used by any active
object) as the new node's id and increments the counter exactly once, and the
counter never decreases across a whole `updateGraph` cycle. -/
theorem C9_identifier_allocation (cfg : Config) (ext : List MeshVertex → BoundingBox)
    (g : Graph) (c : Cluster) (label ts : Nat) (st : SegState)
    (clusters : List (Nat × List Cluster))
    (hg : g.hasNode st.nextId = false)
    (hfresh : ∀ p ∈ st.active, ∀ n ∈ p.2, n < st.nextId) :
    (c.cloud = [] → addObjectToGraph ext g c label ts st = (g, st))
    ∧ (∀ (v : MeshVertex) (vs : List MeshVertex), c.cloud = v :: vs →
        (addObjectToGraph ext g c label ts st).2.nextId = st.nextId + 1 ∧
          (addObjectToGraph ext g c label ts st).1.getNode st.nextId =
            some { semantic_label := label, name := st.nextId,
                   bounding_box := ext c.cloud, color := v.color,
                   position := c.centroid })
    ∧ (∀ p ∈ st.active, st.nextId ∉ p.2)
    ∧ st.nextId ≤ (updateGraph cfg ext g clusters ts st).2.1.nextId := by
  refine ⟨fun h => add_empty h, ?_, ?_, updateGraph_nextId_le⟩
  · intro v vs hc
    rw [add_result hc]
    refine ⟨rfl, ?_⟩
    show (c.indices.foldl (fun (g : Graph) i => g.insertMeshEdge st.nextId i)
        (g.emplaceNode st.nextId
          { semantic_label := label, name := st.nextId, bounding_box := ext c.cloud,
            color := v.color, position := c.centroid })).getNode st.nextId = _
    rw [getNode_insertFold]
    exact getNode_emplace_self hg
  · intro p hp hmem
    exact absurd (hfresh p hp _ hmem) (Nat.lt_irrefl _)

/-! ### Detect lemmas and claims -/

theorem detectFold_mem {li : List (Nat × List Nat)} {oracle : List Nat → List Cluster}
    {minsz : Nat} :
    ∀ (labels : List Nat) (acc : List (Nat × List Cluster) × List Nat),
      (∀ lc ∈ (labels.foldl (fun acc label =>
          match alookup label li with
          | none => acc
          | some idxs => if idxs.length < minsz then acc
              else (acc.1 ++ [(label, oracle idxs)], acc.2 ++ [label])) acc).1,
        lc ∈ acc.1 ∨ (lc.1 ∈ labels ∧ ∃ idxs, alookup lc.1 li = some idxs ∧
          minsz ≤ idxs.length ∧ lc.2 = oracle idxs))
      ∧ (∀ l ∈ (labels.foldl (fun acc label =>
          match alookup label li with
          | none => acc
          | some idxs => if idxs.length < minsz then acc
              else (acc.1 ++ [(label, oracle idxs)], acc.2 ++ [label])) acc).2,
          l ∈ acc.2 ∨ (l ∈ labels ∧ ∃ idxs, alookup l li = some idxs ∧
            minsz ≤ idxs.length)) := by
  intro labels
  induction labels with
  | nil => intro acc; exact ⟨fun lc h => Or.inl h, fun l h => Or.inl h⟩
  | cons x rest ih =>
    intro acc
    rw [List.foldl_cons]
    rcases ha : alookup x li with _ | idxs
    · simp only [ha]
      constructor
      · intro lc hlc
        rcases (ih acc).1 lc hlc with h | ⟨h1, h2⟩
        · exact Or.inl h
        · exact Or.inr ⟨List.mem_cons_of_mem x h1, h2⟩
      · intro l hl
        rcases (ih acc).2 l hl with h | ⟨h1, h2⟩
        · exact Or.inl h
        · exact Or.inr ⟨List.mem_cons_of_mem x h1, h2⟩
    · simp only [ha]
      by_cases hlen : idxs.length < minsz
      · rw [if_pos hlen]
        constructor
        · intro lc hlc
          rcases (ih acc).1 lc hlc with h | ⟨h1, h2⟩
          · exact Or.inl h
          · exact Or.inr ⟨List.mem_cons_of_mem x h1, h2⟩
        · intro l hl
          rcases (ih acc).2 l hl with h | ⟨h1, h2⟩
          · exact Or.inl h
          · exact Or.inr ⟨List.mem_cons_of_mem x h1, h2⟩
      · rw [if_neg hlen]
        constructor
        · intro lc hlc
          rcases (ih _).1 lc hlc with h | ⟨h1, h2⟩
          · rcases List.mem_append.1 h with h3 | h3
            · exact Or.inl h3
            · rcases List.mem_singleton.1 h3 with h4
              subst h4
              exact Or.inr ⟨List.mem_cons_self x rest,
                idxs, ha, Nat.le_of_not_lt hlen, rfl⟩
          · exact Or.inr ⟨List.mem_cons_of_mem x h1, h2⟩
        · intro l hl
          rcases (ih _).2 l hl with h | ⟨h1, h2⟩
          · rcases List.mem_append.1 h with h3 | h3
            · exact Or.inl h3
            · rcases List.mem_singleton.1 h3 with h4
              subst h4
              exact Or.inr ⟨List.mem_cons_self _ rest,
                idxs, ha, Nat.le_of_not_lt hlen⟩
          · exact Or.inr ⟨List.mem_cons_of_mem x h1, h2⟩

theorem detectFold_fst_eq {li : List (Nat × List Nat)} {oracle : List Nat → List Cluster}
    {minsz : Nat} (labels : List Nat)
    (acc : List (Nat × List Cluster) × List Nat)
    (h : acc.1.map Prod.fst = acc.2) :
    (labels.foldl (fun acc label =>
        match alookup label li with
        | none => acc
        | some idxs => if idxs.length < minsz then acc
            else (acc.1 ++ [(label, oracle idxs)], acc.2 ++ [label])) acc).1.map
        Prod.fst =
      (labels.foldl (fun acc label =>
        match alookup label li with
        | none => acc
        | some idxs => if idxs.length < minsz then acc
            else (acc.1 ++ [(label, oracle idxs)], acc.2 ++ [label])) acc).2 := by
  refine foldlPreserve _ (fun a => a.1.map Prod.fst = a.2) labels acc ?_ h
  intro a x _ ha
  rcases hx : alookup x li with _ | idxs
  · simp only [hx]
    exact ha
  · simp only [hx]
    by_cases hlen : idxs.length < minsz
    · rw [if_pos hlen]
      exact ha
    · rw [if_neg hlen]
      show (a.1 ++ [(x, oracle idxs)]).map Prod.fst = a.2 ++ [x]
      rw [List.map_append, ha]
      rfl

/-- C4 (corrected): in `detect`, a label of interest whose index count is below
the configured minimum cluster size is never sent to the clustering oracle
(every oracle call is for a label of interest meeting the threshold), and the
returned LabelClusters holds exactly the labels sent to the oracle, each bound
to whatever cluster list the oracle returned — including an empty one: a label
for which the oracle returns zero clusters still appears in the result
(contrary to the claim as stated, refuted by `C4_counterexample`). -/
theorem C4_detect_filter (cfg : Config) (mesh : List MeshVertex)
    (labelMap : Nat → Option Nat) (oracle : List Nat → List Cluster)
    (callbacks : List Nat) (indices : List Nat) (optPos : Option (Nat → Bool)) :
    (∀ l ∈ (detect cfg mesh labelMap oracle callbacks indices optPos).calls,
      l ∈ cfg.labels ∧ ∃ idxs,
        alookup l (getLabelIndices cfg mesh labelMap
          (getActiveIndices indices optPos)) = some idxs ∧
          cfg.min_cluster_size ≤ idxs.length)
    ∧ (∀ lc ∈ (detect cfg mesh labelMap oracle callbacks indices optPos).result,
        lc.1 ∈ cfg.labels ∧ ∃ idxs,
          alookup lc.1 (getLabelIndices cfg mesh labelMap
            (getActiveIndices indices optPos)) = some idxs ∧
            cfg.min_cluster_size ≤ idxs.length ∧ lc.2 = oracle idxs)
    ∧ (detect cfg mesh labelMap oracle callbacks indices optPos).result.map
        Prod.fst =
      (detect cfg mesh labelMap oracle callbacks indices optPos).calls := by
  rw [detect]
  by_cases h1 : (getActiveIndices indices optPos).isEmpty
  · rw [if_pos h1]
    exact ⟨fun l h => absurd h (List.not_mem_nil l),
      fun lc h => absurd h (List.not_mem_nil lc), rfl⟩
  · rw [if_neg h1]
    by_cases h2 : (getLabelIndices cfg mesh labelMap
        (getActiveIndices indices optPos)).isEmpty
    · rw [if_pos h2]
      exact ⟨fun l h => absurd h (List.not_mem_nil l),
        fun lc h => absurd h (List.not_mem_nil lc), rfl⟩
    · rw [if_neg h2]
      refine ⟨?_, ?_, ?_⟩
      · intro l hl
        rcases (detectFold_mem cfg.labels ([], [])).2 l hl with h | ⟨ha, hb⟩
        · cases h
        · exact ⟨ha, hb⟩
      · intro lc hlc
        rcases (detectFold_mem cfg.labels ([], [])).1 lc hlc with h | ⟨ha, hb⟩
        · cases h
        · exact ⟨ha, hb⟩
      · exact detectFold_fst_eq cfg.labels ([], []) rfl

/-- C5 (corrected): `detect` invokes the registered observer callbacks
synchronously, in registration order, whenever the active region is non-empty —
including when no vertex carries a label of interest — but when the active
region is empty it short-circuits to its empty result WITHOUT invoking the
callbacks (contrary to the claim as stated, refuted by `C5_counterexample`). -/
theorem C5_detect_callbacks (cfg : Config) (mesh : List MeshVertex)
    (labelMap : Nat → Option Nat) (oracle : List Nat → List Cluster)
    (callbacks : List Nat) (indices : List Nat) (optPos : Option (Nat → Bool)) :
    (getActiveIndices indices optPos = [] →
      (detect cfg mesh labelMap oracle callbacks indices optPos).events = [])
    ∧ (getActiveIndices indices optPos ≠ [] →
        (detect cfg mesh labelMap oracle callbacks indices optPos).events =
          callbacks.map (fun cb => (cb, getActiveIndices indices optPos,
            getLabelIndices cfg mesh labelMap
              (getActiveIndices indices optPos)))) := by
  rw [detect]
  constructor
  · intro h
    rw [if_pos (by rw [h]; rfl)]
  · intro h
    rw [if_neg (by simpa [List.isEmpty_iff] using h)]
    by_cases h2 : (getLabelIndices cfg mesh labelMap
        (getActiveIndices indices optPos)).isEmpty
    · rw [if_pos h2]
    · rw [if_neg h2]

/-! ### Dedup step lemmas and claim C2 -/

theorem dedupOuter_skip {label : Nat} {tc : List Nat} {acc : Graph × SegState}
    {nid : NodeId} (h : acc.1.getNode nid = none) :
    dedupOuter label tc acc nid = acc := by
  rw [dedupOuter, h]

theorem dedupOuter_enter {label : Nat} {tc : List Nat} {acc : Graph × SegState}
    {nid : NodeId} {na : ObjectAttrs} (h : acc.1.getNode nid = some na) :
    dedupOuter label tc acc nid = tc.foldl (dedupInner label nid na) acc := by
  rw [dedupOuter]
  simp only [h]

theorem dedupInner_self {label : Nat} {nid : NodeId} {na : ObjectAttrs}
    {acc : Graph × SegState} :
    dedupInner label nid na acc nid = acc := by
  rw [dedupInner, if_pos (by simp)]

theorem dedupInner_gone {label : Nat} {nid : NodeId} {na : ObjectAttrs}
    {acc : Graph × SegState} {other : NodeId} (hne : other ≠ nid)
    (h : acc.1.getNode other = none) :
    dedupInner label nid na acc other = acc := by
  rw [dedupInner, if_neg (by simpa using hne), h]

theorem dedupInner_remove_other {label : Nat} {nid : NodeId} {na : ObjectAttrs}
    {acc : Graph × SegState} {other : NodeId} {oa : ObjectAttrs}
    (hne : other ≠ nid) (h : acc.1.getNode other = some oa)
    (hcont : (na.bounding_box.contains oa.position ||
      oa.bounding_box.contains na.position) = true)
    (hvol : oa.bounding_box.vol ≤ na.bounding_box.vol) :
    dedupInner label nid na acc other = removeEverywhere label other acc.1 acc.2 := by
  rw [dedupInner, if_neg (by simpa using hne)]
  simp only [h]
  rw [if_pos hcont, if_pos hvol]

theorem dedupInner_remove_node {label : Nat} {nid : NodeId} {na : ObjectAttrs}
    {acc : Graph × SegState} {other : NodeId} {oa : ObjectAttrs}
    (hne : other ≠ nid) (h : acc.1.getNode other = some oa)
    (hcont : (na.bounding_box.contains oa.position ||
      oa.bounding_box.contains na.position) = true)
    (hvol : ¬oa.bounding_box.vol ≤ na.bounding_box.vol) :
    dedupInner label nid na acc other = removeEverywhere label nid acc.1 acc.2 := by
  rw [dedupInner, if_neg (by simpa using hne)]
  simp only [h]
  rw [if_pos hcont, if_neg hvol]

theorem alookup_of_alLookupD_cons {label : Nat} {m : List (Nat × List Nat)}
    {x : Nat} {xs : List Nat} (h : alLookupD label [] m = x :: xs) :
    alookup label m = some (x :: xs) := by
  rcases hv : alookup label m with _ | v
  · rw [alLookupD, hv] at h
    cases h
  · rw [alLookupD, hv, Option.getD_some] at h
    rw [h]

/-- C2 (corrected): when exactly two active identifiers of a label — both with
live graph nodes — satisfy the mutual containment test, the dedup pass removes
exactly the smaller-volume one (on equal volumes, the one enumerated second)
from the graph, the label's active set, the timestamp map and the
pending-linkage set, and keeps the other; the universally quantified claim is
false with a third object present (an object removed through a different
overlapping pair can make the larger member of a pair the removed one, refuted
by `C2_counterexample`). -/
theorem C2_dedup_two_objects (label : Nat) (g : Graph) (st : SegState)
    (a b : NodeId) (boxa boxb : ObjectAttrs)
    (hab : a ≠ b)
    (hlist : alLookupD label [] st.active = [a, b])
    (ha : g.getNode a = some boxa) (hb : g.getNode b = some boxb)
    (hcont : (boxa.bounding_box.contains boxb.position ||
      boxb.bounding_box.contains boxa.position) = true) :
    (boxb.bounding_box.vol ≤ boxa.bounding_box.vol →
      (dedupLabel label g st).1.hasNode b = false ∧
        (dedupLabel label g st).1.hasNode a = true ∧
        alLookupD label [] (dedupLabel label g st).2.active = [a] ∧
        alookup b (dedupLabel label g st).2.tstamps = none ∧
        b ∉ (dedupLabel label g st).2.toCheck)
    ∧ (boxa.bounding_box.vol < boxb.bounding_box.vol →
        (dedupLabel label g st).1.hasNode a = false ∧
          (dedupLabel label g st).1.hasNode b = true ∧
          alLookupD label [] (dedupLabel label g st).2.active = [b] ∧
          alookup a (dedupLabel label g st).2.tstamps = none ∧
          a ∉ (dedupLabel label g st).2.toCheck) := by
  have hfold : dedupLabel label g st =
      dedupOuter label [a, b] (dedupOuter label [a, b] (g, st) a) b := by
    rw [dedupLabel, hlist]
    rw [List.foldl_cons, List.foldl_cons, List.foldl_nil]
  have hbinding : alookup label st.active = some [a, b] :=
    alookup_of_alLookupD_cons hlist
  constructor
  · intro hv
    have hstep1 : dedupOuter label [a, b] (g, st) a = removeEverywhere label b g st := by
      rw [@dedupOuter_enter label [a, b] (g, st) a boxa ha,
        List.foldl_cons, List.foldl_cons,
        List.foldl_nil, dedupInner_self,
        dedupInner_remove_other (Ne.symm hab) hb hcont hv]
    have hgone : (removeEverywhere label b g st).1.getNode b = none := by
      show (g.removeNode b).getNode b = none
      rw [getNode_removeNode, if_pos rfl]
    have hres : dedupLabel label g st = removeEverywhere label b g st := by
      rw [hfold, hstep1, dedupOuter_skip hgone]
    rw [hres]
    refine ⟨?_, ?_, ?_, ?_, ?_⟩
    · show (g.removeNode b).hasNode b = false
      rw [hasNode_removeNode, if_pos rfl]
    · show (g.removeNode b).hasNode a = true
      rw [hasNode_removeNode, if_neg hab, Graph.hasNode, ha]
      rfl
    · show alLookupD label [] (alUpdate label (setErase b) st.active) = [a]
      rw [alLookupD, alookup_alUpdate, if_pos rfl, hbinding]
      show (some (setErase b [a, b])).getD [] = [a]
      have : setErase b [a, b] = [a] := by
        rw [setErase]
        simp [hab]
      rw [this]
      rfl
    · show alookup b (tsErase b st.tstamps) = none
      rw [alookup_tsErase, if_pos rfl]
    · show b ∉ setErase b st.toCheck
      intro hmem
      exact absurd (mem_setErase.1 hmem).2 (by simp)
  · intro hv
    have hstep1 : dedupOuter label [a, b] (g, st) a = removeEverywhere label a g st := by
      rw [@dedupOuter_enter label [a, b] (g, st) a boxa ha,
        List.foldl_cons, List.foldl_cons,
        List.foldl_nil, dedupInner_self,
        dedupInner_remove_node (Ne.symm hab) hb hcont (not_le.2 hv)]
    have hbnode : (removeEverywhere label a g st).1.getNode b = some boxb := by
      show (g.removeNode a).getNode b = some boxb
      rw [getNode_removeNode, if_neg (Ne.symm hab)]
      exact hb
    have hagone : (removeEverywhere label a g st).1.getNode a = none := by
      show (g.removeNode a).getNode a = none
      rw [getNode_removeNode, if_pos rfl]
    have hres : dedupLabel label g st = removeEverywhere label a g st := by
      rw [hfold, hstep1,
        @dedupOuter_enter label [a, b] (removeEverywhere label a g st) b boxb hbnode,
        List.foldl_cons, List.foldl_cons, List.foldl_nil,
        dedupInner_gone hab hagone, dedupInner_self]
    rw [hres]
    refine ⟨?_, ?_, ?_, ?_, ?_⟩
    · show (g.removeNode a).hasNode a = false
      rw [hasNode_removeNode, if_pos rfl]
    · show (g.removeNode a).hasNode b = true
      rw [hasNode_removeNode, if_neg (Ne.symm hab), Graph.hasNode, hb]
      rfl
    · show alLookupD label [] (alUpdate label (setErase a) st.active) = [b]
      rw [alLookupD, alookup_alUpdate, if_pos rfl, hbinding]
      show (some (setErase a [a, b])).getD [] = [b]
      have : setErase a [a, b] = [b] := by
        rw [setErase]
        simp [Ne.symm hab]
      rw [this]
      rfl
    · show alookup a (tsErase a st.tstamps) = none
      rw [alookup_tsErase, if_pos rfl]
    · show a ∉ setErase a st.toCheck
      intro hmem
      exact absurd (mem_setErase.1 hmem).2 (by simp)

/-! ### Invariant machinery -/

theorem mapUpdate_mem' {α} (f : α → α) (l : Nat) (m : List (Nat × α)) (q : Nat × α)
    (h : q ∈ m.map (fun p => if p.1 == l then (p.1, f p.2) else p)) :
    ∃ p ∈ m, q.1 = p.1 ∧ ((p.1 = l ∧ q.2 = f p.2) ∨ (p.1 ≠ l ∧ q.2 = p.2)) := by
  rcases List.mem_map.1 h with ⟨p, hp, hq⟩
  by_cases hpl : p.1 = l
  · rw [if_pos (by simpa using hpl)] at hq
    exact ⟨p, hp, by subst hq; exact ⟨rfl, Or.inl ⟨hpl, rfl⟩⟩⟩
  · rw [if_neg (by simpa using hpl)] at hq
    exact ⟨p, hp, by subst hq; exact ⟨rfl, Or.inr ⟨hpl, rfl⟩⟩⟩

theorem mapUpdate_mem_of {α} (f : α → α) (l : Nat) {m : List (Nat × α)}
    {p : Nat × α} (hp : p ∈ m) :
    (if p.1 == l then (p.1, f p.2) else p) ∈
      m.map (fun p => if p.1 == l then (p.1, f p.2) else p) :=
  List.mem_map.2 ⟨p, hp, rfl⟩

theorem alLookupD_alUpdate {l : Nat} {f : List Nat → List Nat}
    {m : List (Nat × List Nat)} (hf : f [] = []) :
    alLookupD l [] (alUpdate l f m) = f (alLookupD l [] m) := by
  rw [alLookupD, alookup_alUpdate, if_pos rfl]
  rcases hv : alookup l m with _ | v
  · rw [alLookupD, hv]
    exact hf.symm
  · rw [alLookupD, hv]
    rfl

theorem alookup_isSome_iff_mem_keys {α} {l : Nat} {m : List (Nat × α)} :
    (alookup l m).isSome = true ↔ l ∈ m.map Prod.fst := by
  rw [alookup_isSome_iff]
  constructor
  · rintro ⟨p, hp, hpl⟩
    exact List.mem_map.2 ⟨p, hp, hpl⟩
  · intro h
    rcases List.mem_map.1 h with ⟨p, hp, hpl⟩
    exact ⟨p, hp, hpl⟩

theorem entry_val_eq_lookup {m : List (Nat × List Nat)}
    (hnd : (m.map Prod.fst).Nodup) {p : Nat × List Nat} (hp : p ∈ m) :
    p.2 = alLookupD p.1 [] m := by
  have : alookup p.1 m = some p.2 :=
    alookup_of_mem_nodup hnd (by rw [Prod.mk.eta]; exact hp)
  rw [alLookupD, this]
  rfl

theorem archivePass_ts_sublist {g : Graph} {cfg : Config} {ts : Nat}
    {acc : SegState × List Nat} {label : Nat} :
    (((archivePassLabel g cfg ts acc label).1.tstamps).map Prod.fst).Sublist
      ((acc.1.tstamps).map Prod.fst) := by
  simp only [archivePassLabel]
  exact tsEraseFold_map_fst_sublist _ _

theorem archiveFold_ts_sublist {g : Graph} {cfg : Config} {ts : Nat}
    {labels : List Nat} {st : SegState} {ar : List Nat} :
    (((labels.foldl (archivePassLabel g cfg ts) (st, ar)).1.tstamps).map
      Prod.fst).Sublist ((st.tstamps).map Prod.fst) := by
  refine foldlPreserve (archivePassLabel g cfg ts)
    (fun a => ((a.1.tstamps).map Prod.fst).Sublist ((st.tstamps).map Prod.fst))
    labels (st, ar) ?_ (List.Sublist.refl _)
  intro a x _ ha
  exact archivePass_ts_sublist.trans ha

theorem archive_inv {g : Graph} {cfg : Config} {st : SegState} {ts : Nat}
    (hinv : SegInv cfg st) :
    SegInv cfg (archiveOldObjects g cfg st ts).1 ∧
      NodesLive g (archiveOldObjects g cfg st ts).1 := by
  have hld := ldisj_of_actDisjoint hinv.disj
  have hspec := archiveFold_spec g cfg ts cfg.labels hinv.labelsND st [] hld
  rw [archiveOldObjects]
  set st1 := (cfg.labels.foldl (archivePassLabel g cfg ts) (st, [])).1 with hst1
  have hkeys : st1.active.map Prod.fst = st.active.map Prod.fst :=
    hspec.2.2.2.2.2.2.2
  have hnd1 : (st1.active.map Prod.fst).Nodup := by
    rw [hkeys]; exact hinv.actND
  have hkeysIn : ∀ p ∈ st1.active, p.1 ∈ cfg.labels := by
    intro p hp
    have : p.1 ∈ st1.active.map Prod.fst := List.mem_map.2 ⟨p, hp, rfl⟩
    rw [hkeys] at this
    rcases List.mem_map.1 this with ⟨q, hq, hql⟩
    rw [← hql]
    exact hinv.keysIn q hq
  have hsub : ∀ p ∈ st1.active, ∀ n ∈ p.2,
      n ∈ alLookupD p.1 [] st.active ∧ badFor g cfg st.tstamps ts n = false := by
    intro p hp n hn
    rw [entry_val_eq_lookup hnd1 hp] at hn
    rw [hspec.1 p.1 (hkeysIn p hp)] at hn
    rcases List.mem_filter.1 hn with ⟨h1, h2⟩
    refine ⟨h1, ?_⟩
    rcases hbf : badFor g cfg st.tstamps ts n
    · rfl
    · rw [hbf] at h2; cases h2
  have hnotrem : ∀ p ∈ st1.active, ∀ n ∈ p.2,
      ¬∃ l ∈ cfg.labels, n ∈ alLookupD l [] st.active ∧
        badFor g cfg st.tstamps ts n = true := by
    intro p hp n hn
    rcases hsub p hp n hn with ⟨h1, h2⟩
    rintro ⟨l, _, hn2, hb2⟩
    by_cases he : l = p.1
    · subst he
      rw [hb2] at h2
      cases h2
    · exact hld l p.1 he n hn2 h1
  refine ⟨⟨hinv.labelsND, hnd1, ?_, hkeysIn, ?_, ?_, ?_, ?_⟩, ?_⟩
  · exact hinv.tsND.sublist archiveFold_ts_sublist
  · intro l hl
    rw [alookup_isSome_iff_mem_keys, hkeys, ← alookup_isSome_iff_mem_keys]
    exact hinv.covers l hl
  · intro p hp q hq hne x hxp hxq
    have h1 := (hsub p hp x hxp).1
    have h2 := (hsub q hq x hxq).1
    exact hld p.1 q.1 hne x h1 h2
  · intro p hp n hn
    have h1 := (hsub p hp n hn).1
    rcases hv : alookup p.1 st.active with _ | v
    · rw [alLookupD, hv] at h1
      cases h1
    · rw [alLookupD, hv, Option.getD_some] at h1
      have hfr := hinv.fresh (p.1, v) (alookup_mem hv) n h1
      have hnid : st1.nextId = st.nextId := hspec.2.2.2.2.2.2.1
      rw [hnid]
      exact hfr
  · intro n
    constructor
    · rintro ⟨p, hp, hn⟩
      rcases hsub p hp n hn with ⟨h1, _⟩
      have hts1 : alookup n st1.tstamps = alookup n st.tstamps := by
        rw [hspec.2.2.1 n, if_neg (hnotrem p hp n hn)]
      rw [hts1]
      rcases hv : alookup p.1 st.active with _ | v
      · rw [alLookupD, hv] at h1
        cases h1
      · rw [alLookupD, hv, Option.getD_some] at h1
        exact (hinv.consist n).1 ⟨(p.1, v), alookup_mem hv, h1⟩
    · intro hsome
      have hcond : ¬∃ l ∈ cfg.labels, n ∈ alLookupD l [] st.active ∧
          badFor g cfg st.tstamps ts n = true := by
        intro hc
        rw [hspec.2.2.1 n, if_pos hc] at hsome
        cases hsome
      have hts1 : alookup n st1.tstamps = alookup n st.tstamps := by
        rw [hspec.2.2.1 n, if_neg hcond]
      rw [hts1] at hsome
      rcases (hinv.consist n).2 hsome with ⟨p, hp, hn⟩
      have hlk : n ∈ alLookupD p.1 [] st.active := by
        rw [← entry_val_eq_lookup hinv.actND hp]
        exact hn
      have hkl : p.1 ∈ cfg.labels := hinv.keysIn p hp
      have hbf : badFor g cfg st.tstamps ts n = false := by
        rcases hbf2 : badFor g cfg st.tstamps ts n
        · rfl
        · exact absurd ⟨p.1, hkl, hlk, hbf2⟩ hcond
      have hmem1 : n ∈ alLookupD p.1 [] st1.active := by
        rw [hspec.1 p.1 hkl]
        exact List.mem_filter.2 ⟨hlk, by rw [hbf]; rfl⟩
      rcases hv : alookup p.1 st1.active with _ | v
      · rw [alLookupD, hv] at hmem1
        cases hmem1
      · rw [alLookupD, hv, Option.getD_some] at hmem1
        exact ⟨(p.1, v), alookup_mem hv, hmem1⟩
  · intro p hp n hn
    have hbf := (hsub p hp n hn).2
    exact (badFor_false_iff.1 hbf).1

theorem inv_removeEverywhere {cfg : Config} {label x : Nat} {g : Graph} {st : SegState}
    (hinv : SegInv cfg st) (hlive : NodesLive g st)
    (hx : (∃ p ∈ st.active, x ∈ p.2) → x ∈ alLookupD label [] st.active) :
    SegInv cfg (removeEverywhere label x g st).2 ∧
      NodesLive (removeEverywhere label x g st).1 (removeEverywhere label x g st).2 ∧
      (∀ y, (∃ p ∈ (removeEverywhere label x g st).2.active, y ∈ p.2) →
        ∃ p ∈ st.active, y ∈ p.2) ∧
      ¬∃ p ∈ (removeEverywhere label x g st).2.active, x ∈ p.2 := by
  have hact : (removeEverywhere label x g st).2.active =
      alUpdate label (setErase x) st.active := rfl
  have htst : (removeEverywhere label x g st).2.tstamps = tsErase x st.tstamps := rfl
  have hnid : (removeEverywhere label x g st).2.nextId = st.nextId := rfl
  have hgr : (removeEverywhere label x g st).1 = g.removeNode x := rfl
  have F1 : ∀ (p' : Nat × List Nat), p' ∈ alUpdate label (setErase x) st.active →
      ∀ y ∈ p'.2, ∃ p ∈ st.active, p'.1 = p.1 ∧ y ∈ p.2 ∧ (p.1 = label → y ≠ x) := by
    intro p' hp' y hy
    rcases mapUpdate_mem' (setErase x) label st.active p' hp' with
      ⟨p, hp, hfst, (⟨hpl, hval⟩ | ⟨hpl, hval⟩)⟩
    · rw [hval] at hy
      rcases mem_setErase.1 hy with ⟨h1, h2⟩
      exact ⟨p, hp, hfst, h1, fun _ => h2⟩
    · rw [hval] at hy
      exact ⟨p, hp, hfst, hy, fun he => absurd he hpl⟩
  have F2 : ¬∃ p ∈ (removeEverywhere label x g st).2.active, x ∈ p.2 := by
    rw [hact]
    rintro ⟨p', hp', hx'⟩
    rcases F1 p' hp' x hx' with ⟨p, hp, _, hxp, hlab⟩
    have hxl : x ∈ alLookupD label [] st.active := hx ⟨p, hp, hxp⟩
    rcases hv : alookup label st.active with _ | L
    · rw [alLookupD, hv] at hxl
      cases hxl
    · rw [alLookupD, hv, Option.getD_some] at hxl
      by_cases hpl : p.1 = label
      · exact hlab hpl rfl
      · exact hinv.disj p hp (label, L) (alookup_mem hv) hpl x hxp hxl
  have F3 : ∀ y, (∃ p ∈ (removeEverywhere label x g st).2.active, y ∈ p.2) →
      (∃ p ∈ st.active, y ∈ p.2) ∧ y ≠ x := by
    intro y hy
    rcases hy with ⟨p', hp', hyp⟩
    rw [hact] at hp'
    rcases F1 p' hp' y hyp with ⟨p, hp, _, hyp2, _⟩
    refine ⟨⟨p, hp, hyp2⟩, ?_⟩
    intro he
    subst he
    exact F2 ⟨p', by rw [hact]; exact hp', hyp⟩
  have F4 : ∀ y, (∃ p ∈ st.active, y ∈ p.2) → y ≠ x →
      ∃ p ∈ (removeEverywhere label x g st).2.active, y ∈ p.2 := by
    rintro y ⟨p, hp, hy⟩ hne
    rw [hact]
    by_cases hpl : p.1 = label
    · refine ⟨(p.1, setErase x p.2), ?_, ?_⟩
      · have := mapUpdate_mem_of (setErase x) label hp
        rw [if_pos (by simpa using hpl)] at this
        exact this
      · exact mem_setErase.2 ⟨hy, hne⟩
    · refine ⟨p, ?_, hy⟩
      have := mapUpdate_mem_of (setErase x) label hp
      rw [if_neg (by simpa using hpl)] at this
      exact this
  refine ⟨⟨hinv.labelsND, ?_, ?_, ?_, ?_, ?_, ?_, ?_⟩, ?_, fun y h => (F3 y h).1, F2⟩
  · rw [hact, alUpdate_map_fst]
    exact hinv.actND
  · rw [htst]
    exact hinv.tsND.sublist ((List.filter_sublist _).map Prod.fst)
  · intro p' hp'
    rw [hact] at hp'
    rcases mapUpdate_mem' (setErase x) label st.active p' hp' with
      ⟨p, hp, hfst, _⟩
    rw [hfst]
    exact hinv.keysIn p hp
  · intro l hl
    rw [hact, alookup_isSome_iff_mem_keys, alUpdate_map_fst,
      ← alookup_isSome_iff_mem_keys]
    exact hinv.covers l hl
  · intro p' hp' q' hq' hne y hyp hyq
    rw [hact] at hp' hq'
    rcases F1 p' hp' y hyp with ⟨p, hp, hf1, hy1, _⟩
    rcases F1 q' hq' y hyq with ⟨q, hq, hf2, hy2, _⟩
    rw [hf1, hf2] at hne
    exact hinv.disj p hp q hq hne y hy1 hy2
  · intro p' hp' n hn
    rw [hact] at hp'
    rcases F1 p' hp' n hn with ⟨p, hp, _, hn2, _⟩
    rw [hnid]
    exact hinv.fresh p hp n hn2
  · intro n
    rw [htst]
    constructor
    · intro hu
      rcases F3 n hu with ⟨hun, hne⟩
      rw [alookup_tsErase, if_neg hne]
      exact (hinv.consist n).1 hun
    · intro hsome
      rw [alookup_tsErase] at hsome
      by_cases hne : n = x
      · rw [if_pos hne] at hsome
        cases hsome
      · rw [if_neg hne] at hsome
        exact F4 n ((hinv.consist n).2 hsome) hne
  · intro p' hp' n hn
    have h3 := F3 n ⟨p', hp', hn⟩
    rcases h3 with ⟨⟨p, hp, hnp⟩, hne⟩
    rw [hgr, hasNode_removeNode, if_neg hne]
    exact hlive p hp n hnp

theorem inv_dedupInner {cfg : Config} {label : Nat} {snap : List Nat}
    {nid other : Nat} {na : ObjectAttrs} {acc : Graph × SegState}
    (hN : nid ∈ snap) (hO : other ∈ snap)
    (h : SegInv cfg acc.2 ∧ NodesLive acc.1 acc.2 ∧
      (∀ x ∈ snap, (∃ p ∈ acc.2.active, x ∈ p.2) →
        x ∈ alLookupD label [] acc.2.active)) :
    SegInv cfg (dedupInner label nid na acc other).2 ∧
      NodesLive (dedupInner label nid na acc other).1
        (dedupInner label nid na acc other).2 ∧
      (∀ x ∈ snap, (∃ p ∈ (dedupInner label nid na acc other).2.active, x ∈ p.2) →
        x ∈ alLookupD label [] (dedupInner label nid na acc other).2.active) := by
  have hremove : ∀ y, y ∈ snap →
      (SegInv cfg (removeEverywhere label y acc.1 acc.2).2 ∧
        NodesLive (removeEverywhere label y acc.1 acc.2).1
          (removeEverywhere label y acc.1 acc.2).2 ∧
        (∀ x ∈ snap,
          (∃ p ∈ (removeEverywhere label y acc.1 acc.2).2.active, x ∈ p.2) →
          x ∈ alLookupD label [] (removeEverywhere label y acc.1 acc.2).2.active)) := by
    intro y hy
    rcases inv_removeEverywhere h.1 h.2.1 (h.2.2 y hy) with ⟨c1, c2, c3, c5⟩
    refine ⟨c1, c2, ?_⟩
    intro x hx hu
    have hxy : x ≠ y := by
      intro he
      subst he
      exact c5 hu
    have hxl : x ∈ alLookupD label [] acc.2.active := h.2.2 x hx (c3 x hu)
    have hlk : alLookupD label [] (removeEverywhere label y acc.1 acc.2).2.active =
        setErase y (alLookupD label [] acc.2.active) := by
      show alLookupD label [] (alUpdate label (setErase y) acc.2.active) = _
      exact alLookupD_alUpdate rfl
    rw [hlk]
    exact mem_setErase.2 ⟨hxl, hxy⟩
  rw [dedupInner]
  by_cases h1 : other == nid
  · rw [if_pos h1]
    exact h
  · rw [if_neg h1]
    rcases hg : acc.1.getNode other with _ | oa
    · simp only [hg]
      exact h
    · simp only [hg]
      rcases hcont : na.bounding_box.contains oa.position ||
          oa.bounding_box.contains na.position
      · simp only [Bool.false_eq_true, if_false]
        exact h
      · simp only [if_true]
        by_cases hvol : oa.bounding_box.vol ≤ na.bounding_box.vol
        · rw [if_pos hvol]
          exact hremove other hO
        · rw [if_neg hvol]
          exact hremove nid hN

theorem inv_dedupOuter {cfg : Config} {label : Nat} {snap : List Nat}
    {nid : Nat} {acc : Graph × SegState} (hN : nid ∈ snap)
    (h : SegInv cfg acc.2 ∧ NodesLive acc.1 acc.2 ∧
      (∀ x ∈ snap, (∃ p ∈ acc.2.active, x ∈ p.2) →
        x ∈ alLookupD label [] acc.2.active)) :
    SegInv cfg (dedupOuter label snap acc nid).2 ∧
      NodesLive (dedupOuter label snap acc nid).1 (dedupOuter label snap acc nid).2 ∧
      (∀ x ∈ snap, (∃ p ∈ (dedupOuter label snap acc nid).2.active, x ∈ p.2) →
        x ∈ alLookupD label [] (dedupOuter label snap acc nid).2.active) := by
  rw [dedupOuter]
  rcases hg : acc.1.getNode nid with _ | na
  · simp only [hg]
    exact h
  · simp only [hg]
    refine foldlPreserve (dedupInner label nid na)
      (fun a => SegInv cfg a.2 ∧ NodesLive a.1 a.2 ∧
        (∀ x ∈ snap, (∃ p ∈ a.2.active, x ∈ p.2) →
          x ∈ alLookupD label [] a.2.active)) snap acc ?_ h
    intro a o ho ha
    exact inv_dedupInner hN ho ha

theorem inv_dedupLabel {cfg : Config} {label : Nat} {g : Graph} {st : SegState}
    (hinv : SegInv cfg st) (hlive : NodesLive g st) :
    SegInv cfg (dedupLabel label g st).2 ∧
      NodesLive (dedupLabel label g st).1 (dedupLabel label g st).2 := by
  rw [dedupLabel]
  have hres := foldlPreserve (dedupOuter label (alLookupD label [] st.active))
    (fun a => SegInv cfg a.2 ∧ NodesLive a.1 a.2 ∧
      (∀ x ∈ alLookupD label [] st.active, (∃ p ∈ a.2.active, x ∈ p.2) →
        x ∈ alLookupD label [] a.2.active))
    (alLookupD label [] st.active) (g, st)
    (fun a nid hn ha => inv_dedupOuter hn ha)
    ⟨hinv, hlive, fun x hx _ => hx⟩
  exact ⟨hres.1, hres.2.1⟩

theorem inv_processCluster {cfg : Config} {ext : List MeshVertex → BoundingBox}
    {label ts : Nat} {acc : Graph × SegState} {c : Cluster}
    (hl : label ∈ cfg.labels)
    (hinv : SegInv cfg acc.2) (hlive : NodesLive acc.1 acc.2) :
    SegInv cfg (processCluster ext label ts acc c).2 ∧
      NodesLive (processCluster ext label ts acc c).1
        (processCluster ext label ts acc c).2 := by
  rw [processCluster]
  rcases hf : (alLookupD label [] acc.2.active).find?
      (fun n => objectsMatchD acc.1 c n) with _ | nid
  · simp only [hf]
    rcases hc : c.cloud with _ | ⟨v, vs⟩
    · rw [add_empty hc]
      exact ⟨hinv, hlive⟩
    · rw [add_result hc]
      have hNfresh : ∀ p ∈ acc.2.active, acc.2.nextId ∉ p.2 :=
        fun p hp hmem => absurd (hinv.fresh p hp _ hmem) (Nat.lt_irrefl _)
      have hNts : alookup acc.2.nextId acc.2.tstamps = none := by
        rcases hh : alookup acc.2.nextId acc.2.tstamps with _ | t
        · rfl
        · rcases (hinv.consist _).2 (by rw [hh]; rfl) with ⟨p, hp, hm⟩
          exact absurd hm (hNfresh p hp)
      rcases hbq : alookup label acc.2.active with _ | L
      · have := hinv.covers label hl
        rw [hbq] at this
        cases this
      have hpside : ∀ (p' : Nat × List Nat),
          p' ∈ alUpdate label (setInsert acc.2.nextId) acc.2.active → ∀ x ∈ p'.2,
          ∃ p ∈ acc.2.active, p'.1 = p.1 ∧
            (x ∈ p.2 ∨ (p.1 = label ∧ x = acc.2.nextId)) := by
        intro p' hp' x hx
        rcases mapUpdate_mem' (setInsert acc.2.nextId) label acc.2.active p' hp' with
          ⟨p, hp, hfst, (⟨hpl, hval⟩ | ⟨hpl, hval⟩)⟩
        · rw [hval] at hx
          rcases mem_setInsert.1 hx with he | hm
          · exact ⟨p, hp, hfst, Or.inr ⟨hpl, he⟩⟩
          · exact ⟨p, hp, hfst, Or.inl hm⟩
        · rw [hval] at hx
          exact ⟨p, hp, hfst, Or.inl hx⟩
      refine ⟨⟨hinv.labelsND, ?_, ?_, ?_, ?_, ?_, ?_, ?_⟩, ?_⟩
      · show ((alUpdate label (setInsert acc.2.nextId) acc.2.active).map
            Prod.fst).Nodup
        rw [alUpdate_map_fst]
        exact hinv.actND
      · show ((tsSet acc.2.nextId ts acc.2.tstamps).map Prod.fst).Nodup
        exact tsSet_nodup hinv.tsND
      · intro p' hp'
        rcases mapUpdate_mem' (setInsert acc.2.nextId) label acc.2.active p' hp' with
          ⟨p, hp, hfst, _⟩
        rw [hfst]
        exact hinv.keysIn p hp
      · intro l hl2
        show (alookup l (alUpdate label (setInsert acc.2.nextId)
          acc.2.active)).isSome = true
        rw [alookup_isSome_iff_mem_keys, alUpdate_map_fst,
          ← alookup_isSome_iff_mem_keys]
        exact hinv.covers l hl2
      · intro p' hp' q' hq' hne x hxp hxq
        rcases hpside p' hp' x hxp with ⟨p, hp, hfp, hcp⟩
        rcases hpside q' hq' x hxq with ⟨q, hq, hfq, hcq⟩
        rw [hfp, hfq] at hne
        rcases hcp with hm1 | ⟨hpl, he1⟩
        · rcases hcq with hm2 | ⟨hql, he2⟩
          · exact hinv.disj p hp q hq hne x hm1 hm2
          · subst he2
            exact hNfresh p hp hm1
        · rcases hcq with hm2 | ⟨hql, he2⟩
          · subst he1
            exact hNfresh q hq hm2
          · rw [hpl, hql] at hne
            exact hne rfl
      · intro p' hp' n hn
        show n < acc.2.nextId + 1
        rcases hpside p' hp' n hn with ⟨p, hp, _, (hm | ⟨_, he⟩)⟩
        · exact (hinv.fresh p hp n hm).trans (Nat.lt_succ_self _)
        · rw [he]
          exact Nat.lt_succ_self _
      · intro n
        show (∃ p ∈ alUpdate label (setInsert acc.2.nextId) acc.2.active, n ∈ p.2) ↔
          (alookup n (tsSet acc.2.nextId ts acc.2.tstamps)).isSome = true
        rw [alookup_tsSet]
        constructor
        · rintro ⟨p', hp', hn⟩
          by_cases he : n = acc.2.nextId
          · rw [if_pos he]
            rfl
          · rw [if_neg he]
            rcases hpside p' hp' n hn with ⟨p, hp, _, (hm | ⟨_, he2⟩)⟩
            · exact (hinv.consist n).1 ⟨p, hp, hm⟩
            · exact absurd he2 he
        · intro hsome
          by_cases he : n = acc.2.nextId
          · subst he
            have himg := mapUpdate_mem_of (setInsert acc.2.nextId) label
              (alookup_mem hbq)
            rw [if_pos (by simp)] at himg
            exact ⟨(label, setInsert acc.2.nextId L), himg,
              mem_setInsert.2 (Or.inl rfl)⟩
          · rw [if_neg he] at hsome
            rcases (hinv.consist n).2 hsome with ⟨p, hp, hm⟩
            by_cases hpl : p.1 = label
            · have himg := mapUpdate_mem_of (setInsert acc.2.nextId) label hp
              rw [if_pos (by simpa using hpl)] at himg
              exact ⟨(p.1, setInsert acc.2.nextId p.2), himg,
                mem_setInsert.2 (Or.inr hm)⟩
            · have himg := mapUpdate_mem_of (setInsert acc.2.nextId) label hp
              rw [if_neg (by simpa using hpl)] at himg
              exact ⟨p, himg, hm⟩
      · intro p' hp' n hn
        have hred : (c.indices.foldl (fun (g : Graph) i =>
            g.insertMeshEdge acc.2.nextId i)
            (acc.1.emplaceNode acc.2.nextId
              { semantic_label := label, name := acc.2.nextId,
                bounding_box := ext c.cloud, color := v.color,
                position := c.centroid })).hasNode n =
            (acc.1.emplaceNode acc.2.nextId
              { semantic_label := label, name := acc.2.nextId,
                bounding_box := ext c.cloud, color := v.color,
                position := c.centroid }).hasNode n := by
          rw [Graph.hasNode, getNode_insertFold]
          rfl
        show (c.indices.foldl (fun (g : Graph) i =>
            g.insertMeshEdge acc.2.nextId i) _).hasNode n = true
        rw [hred]
        rcases hpside p' hp' n hn with ⟨p, hp, _, (hm | ⟨_, he⟩)⟩
        · exact hasNode_emplace_mono (hlive p hp n hm)
        · rw [he]
          exact hasNode_emplace_self
  · simp only [hf]
    have hmem : nid ∈ alLookupD label [] acc.2.active :=
      List.mem_of_find?_eq_some hf
    have ha : (updateObjectInGraph ext acc.1 c nid ts acc.2).2.active =
        acc.2.active := update_active_eq
    have ht : (updateObjectInGraph ext acc.1 c nid ts acc.2).2.tstamps =
        tsSet nid ts acc.2.tstamps := update_tstamps_eq
    have hni : (updateObjectInGraph ext acc.1 c nid ts acc.2).2.nextId =
        acc.2.nextId := update_nextId_eq
    have hnidu : ∃ p ∈ acc.2.active, nid ∈ p.2 := by
      rcases hv : alookup label acc.2.active with _ | L
      · rw [alLookupD, hv] at hmem
        cases hmem
      · rw [alLookupD, hv, Option.getD_some] at hmem
        exact ⟨(label, L), alookup_mem hv, hmem⟩
    refine ⟨⟨hinv.labelsND, ?_, ?_, ?_, ?_, ?_, ?_, ?_⟩, ?_⟩
    · rw [ha]
      exact hinv.actND
    · rw [ht]
      exact tsSet_nodup hinv.tsND
    · intro p hp
      rw [ha] at hp
      exact hinv.keysIn p hp
    · intro l hl2
      rw [ha]
      exact hinv.covers l hl2
    · rw [ha]
      exact hinv.disj
    · intro p hp n hn
      rw [ha] at hp
      rw [hni]
      exact hinv.fresh p hp n hn
    · intro n
      rw [ha, ht, alookup_tsSet]
      by_cases he : n = nid
      · rw [if_pos he]
        subst he
        exact ⟨fun _ => rfl, fun _ => hnidu⟩
      · rw [if_neg he]
        exact hinv.consist n
    · intro p hp n hn
      rw [ha] at hp
      rw [update_hasNode]
      exact hlive p hp n hn

theorem inv_processLabel {cfg : Config} {ext : List MeshVertex → BoundingBox}
    {ts : Nat} {acc : Graph × SegState} {lc : Nat × List Cluster}
    (hl : lc.1 ∈ cfg.labels)
    (hinv : SegInv cfg acc.2) (hlive : NodesLive acc.1 acc.2) :
    SegInv cfg (processLabel ext ts acc lc).2 ∧
      NodesLive (processLabel ext ts acc lc).1 (processLabel ext ts acc lc).2 := by
  rw [processLabel]
  have hfold := foldlPreserve (processCluster ext lc.1 ts)
    (fun a => SegInv cfg a.2 ∧ NodesLive a.1 a.2) lc.2 acc
    (fun a x _ ha => inv_processCluster hl ha.1 ha.2) ⟨hinv, hlive⟩
  exact inv_dedupLabel hfold.1 hfold.2

/-- C6 (corrected): after a full `reconcile` cycle (`updateGraph`) starting
from a consistent state, the active index and the timestamp map are mutually
consistent — the timestamp map has unique keys and exactly the active
identifiers as keys — and no identifier in either structure refers to a node
absent from the resulting graph; the pending-linkage set, however, is NOT kept
consistent: the archive pass never prunes it, so an archived identifier whose
node vanished can remain in it after the cycle (contrary to the claim as
stated, refuted by `C6_counterexample`). -/
theorem C6_bookkeeping_consistency (cfg : Config)
    (ext : List MeshVertex → BoundingBox) (g : Graph)
    (clusters : List (Nat × List Cluster)) (ts : Nat) (st : SegState)
    (hinv : SegInv cfg st)
    (hlabels : ∀ lc ∈ clusters, lc.1 ∈ cfg.labels) :
    (((updateGraph cfg ext g clusters ts st).2.1.tstamps.map Prod.fst).Nodup)
    ∧ (∀ n, (∃ p ∈ (updateGraph cfg ext g clusters ts st).2.1.active, n ∈ p.2) ↔
        (alookup n (updateGraph cfg ext g clusters ts st).2.1.tstamps).isSome = true)
    ∧ (∀ p ∈ (updateGraph cfg ext g clusters ts st).2.1.active, ∀ n ∈ p.2,
        (updateGraph cfg ext g clusters ts st).1.hasNode n = true)
    ∧ (∀ n, (alookup n (updateGraph cfg ext g clusters ts st).2.1.tstamps).isSome =
          true →
        (updateGraph cfg ext g clusters ts st).1.hasNode n = true) := by
  rw [updateGraph]
  rcases @archive_inv g cfg st ts hinv with ⟨hinv1, hlive1⟩
  have hfold := foldlPreserve (processLabel ext ts)
    (fun a => SegInv cfg a.2 ∧ NodesLive a.1 a.2) clusters
    (g, (archiveOldObjects g cfg st ts).1)
    (fun a lc hlc ha => inv_processLabel (hlabels lc hlc) ha.1 ha.2)
    ⟨hinv1, hlive1⟩
  refine ⟨hfold.1.tsND, hfold.1.consist, hfold.2, ?_⟩
  intro n hsome
  rcases (hfold.1.consist n).2 hsome with ⟨p, hp, hn⟩
  exact hfold.2 p hp n hn

/-! ### Counterexamples and witnesses -/

/-- C1 counterexample: identifier 5 is active and its node is absent from the
graph while its observation is fresh; the archive pass prunes it from the
active index and timestamp map, yet the returned archived set is empty — the
claim that every removed identifier appears in the returned set is false. -/
theorem C1_counterexample :
    5 ∈ alLookupD 1 [] c1st.active ∧ c1g.hasNode 5 = false ∧
      (archiveOldObjects c1g c1cfg c1st 100).1.active = [(1, [])] ∧
      (archiveOldObjects c1g c1cfg c1st 100).1.tstamps = [] ∧
      (archiveOldObjects c1g c1cfg c1st 100).2 = [] := by
  refine ⟨by decide, rfl, ?_, ?_, ?_⟩ <;> rfl

/-- C1 witness: identifier 5 both lost its node and exceeded the horizon; it is
pushed onto the removal list twice without error, pruned from both maps, and
archived exactly once. -/
theorem C1_witness :
    badFor w1g w1cfg w1st.tstamps 100 5 = true ∧
      overdue w1cfg w1st.tstamps 100 5 = true ∧
      (5 ∉ alLookupD 1 [] (archiveOldObjects w1g w1cfg w1st 100).1.active ∧
        alookup 5 (archiveOldObjects w1g w1cfg w1st 100).1.tstamps = none) ∧
      5 ∈ (archiveOldObjects w1g w1cfg w1st 100).2 ∧
      (archiveOldObjects w1g w1cfg w1st 100).2.Nodup := by
  have h := C1_archive_semantics w1g w1cfg w1st 100 1 5 (by decide)
    (by unfold ActDisjoint; decide) (by decide) (by decide)
  exact ⟨by decide, by decide, h.1 (by decide), h.2.1 (by decide), h.2.2.2⟩

/-- C2 counterexample: three same-label active objects 1, 2, 3; the pair
{2, 3} satisfies the containment test with 3 the smaller-volume member, yet the
dedup pass of the cycle removes 2 (the larger, already victim of the pair
{1, 2}) and keeps 3 — the pair loses its larger member, not its smaller one. -/
theorem C2_counterexample :
    2 ∈ alLookupD 1 [] c2st.active ∧ 3 ∈ alLookupD 1 [] c2st.active ∧
      c2boxB.contains c2pC = true ∧ c2boxC.vol < c2boxB.vol ∧
      (updateGraph c2cfg c2ext c2g [(1, [])] 0 c2st).1.hasNode 2 = false ∧
      (updateGraph c2cfg c2ext c2g [(1, [])] 0 c2st).1.hasNode 3 = true ∧
      3 ∈ alLookupD 1 [] (updateGraph c2cfg c2ext c2g [(1, [])] 0 c2st).2.1.active := by
  refine ⟨by decide, by decide, rfl, by decide, rfl, rfl, by decide⟩

/-- C2 witness: two active objects of one label with mutual containment; the
smaller-volume one (id 2) is removed from graph, active set, timestamp map and
pending set, and the larger (id 1) is kept. -/
theorem C2_witness :
    (dedupLabel 1 w2g w2st).1.hasNode 2 = false ∧
      (dedupLabel 1 w2g w2st).1.hasNode 1 = true ∧
      alLookupD 1 [] (dedupLabel 1 w2g w2st).2.active = [1] ∧
      alookup 2 (dedupLabel 1 w2g w2st).2.tstamps = none ∧
      2 ∉ (dedupLabel 1 w2g w2st).2.toCheck :=
  (C2_dedup_two_objects 1 w2g w2st 1 2 w2attrsA w2attrsB (by decide) rfl rfl rfl
    rfl).1 (by decide)

/-- C3 witness: an object with box volume 10 updated by a cluster whose
extracted box has volume 8 — the timestamp advances, the cluster's vertices are
attached as mesh edges, and the node's attributes are untouched. -/
theorem C3_witness :
    alookup 7 (updateObjectInGraph w3ext w3g w3c 7 42 w3st).2.tstamps = some 42 ∧
      (7, 11) ∈ (updateObjectInGraph w3ext w3g w3c 7 42 w3st).1.meshEdges ∧
      ((updateObjectInGraph w3ext w3g w3c 7 42 w3st).1.getNode 7 = some w3attrs ∧
        (updateObjectInGraph w3ext w3g w3c 7 42 w3st).2.toCheck = w3st.toCheck ∧
        (updateObjectInGraph w3ext w3g w3c 7 42 w3st).1.nodes = w3g.nodes) := by
  have h := C3_update_semantics w3ext w3g w3c 7 42 w3st w3attrs rfl
  exact ⟨h.1, h.2.1 11 (by decide), h.2.2.1 (by decide)⟩

/-- C4 counterexample: label 1 meets the minimum-size threshold and is sent to
the oracle, which returns zero clusters; the label nevertheless appears in the
returned LabelClusters with an empty cluster list — the claim that such a label
is absent from the result is false. -/
theorem C4_counterexample :
    (detect c4cfg c4mesh c4lm c4oracle [] [0] none).result = [(1, [])] ∧
      (detect c4cfg c4mesh c4lm c4oracle [] [0] none).calls = [1] := by
  exact ⟨rfl, rfl⟩

/-- C4 witness: label 1 meets the threshold, is called, and the result lists
exactly the called labels. -/
theorem C4_witness :
    1 ∈ (detect w4cfg w4mesh w4lm w4oracle [] [0] none).calls ∧
      (1 ∈ w4cfg.labels ∧ ∃ idxs,
        alookup 1 (getLabelIndices w4cfg w4mesh w4lm
          (getActiveIndices [0] none)) = some idxs ∧
          w4cfg.min_cluster_size ≤ idxs.length) ∧
      (detect w4cfg w4mesh w4lm w4oracle [] [0] none).result.map Prod.fst =
        (detect w4cfg w4mesh w4lm w4oracle [] [0] none).calls := by
  have h := C4_detect_filter w4cfg w4mesh w4lm w4oracle [] [0] none
  exact ⟨by decide, h.1 1 (by decide), h.2.2⟩

/-- C5 counterexample: the active region is empty while a callback is
registered; `detect` returns without invoking any callback — the claim that
observers are still notified on this short-circuit is false. -/
theorem C5_counterexample :
    getActiveIndices [] none = [] ∧
      (detect c5cfg c5mesh c5lm c5oracle [0] [] none).events = [] := by
  exact ⟨rfl, rfl⟩

/-- C5 witness: with a non-empty active region the registered callbacks are
invoked in registration order with the active indices and label partition. -/
theorem C5_witness :
    getActiveIndices [0] none ≠ [] ∧
      (detect w5cfg w5mesh w5lm w5oracle [3, 4] [0] none).events =
        [3, 4].map (fun cb => (cb, getActiveIndices [0] none,
          getLabelIndices w5cfg w5mesh w5lm (getActiveIndices [0] none))) := by
  have h := C5_detect_callbacks w5cfg w5mesh w5lm w5oracle [3, 4] [0] none
  exact ⟨by decide, h.2 (by decide)⟩

/-- C6 counterexample: identifier 5's node vanished and its observation aged
out; the cycle archives it and prunes the active index and timestamp map, yet
it remains in the pending-linkage set afterwards — the claim that no archived
identifier remains there is false. -/
theorem C6_counterexample :
    5 ∈ (updateGraph c6cfg c6ext c6g [] 100 c6st).2.2 ∧
      c6g.hasNode 5 = false ∧
      (updateGraph c6cfg c6ext c6g [] 100 c6st).2.1.toCheck = [5] ∧
      (updateGraph c6cfg c6ext c6g [] 100 c6st).2.1.active = [(1, [])] := by
  refine ⟨by decide, rfl, rfl, rfl⟩

/-- C6 witness: a consistent one-object state run through an empty cycle keeps
the timestamp map keyed exactly by the active identifiers and every active
identifier backed by a graph node. -/
theorem C6_witness :
    (((updateGraph w6cfg w6ext w6g [] 3 w6st).2.1.tstamps.map Prod.fst).Nodup)
    ∧ (∀ p ∈ (updateGraph w6cfg w6ext w6g [] 3 w6st).2.1.active, ∀ n ∈ p.2,
        (updateGraph w6cfg w6ext w6g [] 3 w6st).1.hasNode n = true) := by
  have hconsist : ∀ n, (∃ p ∈ w6st.active, n ∈ p.2) ↔
      (alookup n w6st.tstamps).isSome = true := by
    intro n
    constructor
    · rintro ⟨p, hp, hn⟩
      rcases List.mem_singleton.1 hp with rfl
      rcases List.mem_singleton.1 hn with rfl
      rfl
    · intro h
      rcases alookup_isSome_iff.1 h with ⟨q, hq, hqn⟩
      rcases List.mem_singleton.1 hq with rfl
      rcases hqn with rfl
      exact ⟨(1, [2]), by decide, by decide⟩
  have h := C6_bookkeeping_consistency w6cfg w6ext w6g [] 3 w6st
    ⟨by decide, by decide, by decide, by decide, by decide,
      by unfold ActDisjoint; decide, by decide, hconsist⟩
    (fun lc hlc => absurd hlc (List.not_mem_nil lc))
  exact ⟨h.1, h.2.2.1⟩

/-- C7 witness: two active objects of the label both contain the cluster's
centroid; the first one in enumeration order (id 4) is the one updated. -/
theorem C7_witness :
    objectsMatchD w7g w7c 4 = true ∧ objectsMatchD w7g w7c 7 = true ∧
      processCluster w7ext 1 9 (w7g, w7st) w7c =
        updateObjectInGraph w7ext w7g w7c 4 9 w7st := by
  refine ⟨rfl, rfl, ?_⟩
  exact (C7_first_match w7ext 1 9 w7g w7st w7c).1 [] 4 [7] rfl rfl
    (fun x hx => absurd hx (List.not_mem_nil x))

/-- C8 witness: a second empty-cluster cycle at the same timestamp returns the
graph and state of the first unchanged and archives nothing. -/
theorem C8_witness :
    updateGraph w8cfg w8ext (updateGraph w8cfg w8ext w8g [] 3 w8st).1 [] 3
        (updateGraph w8cfg w8ext w8g [] 3 w8st).2.1 =
      ((updateGraph w8cfg w8ext w8g [] 3 w8st).1,
       (updateGraph w8cfg w8ext w8g [] 3 w8st).2.1, []) :=
  C8_reconcile_idempotent w8cfg w8ext w8g w8st 3 (by decide)
    (by unfold ActDisjoint; decide)

/-- C9 witness: a successful create on counter value 10 allocates node id 10,
bumps the counter to 11, and the counter never decreases over a cycle. -/
theorem C9_witness :
    (addObjectToGraph w9ext w9g w9c 1 5 w9st).2.nextId = w9st.nextId + 1 ∧
      (addObjectToGraph w9ext w9g w9c 1 5 w9st).1.getNode w9st.nextId =
        some { semantic_label := 1, name := w9st.nextId,
               bounding_box := w9ext w9c.cloud, color := 7,
               position := w9c.centroid } ∧
      w9st.nextId ≤ (updateGraph w9cfg w9ext w9g [] 5 w9st).2.1.nextId := by
  have h := C9_identifier_allocation w9cfg w9ext w9g w9c 1 5 w9st [] rfl (by decide)
  rcases h.2.1 ⟨7⟩ [] rfl with ⟨h1, h2⟩
  exact ⟨h1, h2, h.2.2.2⟩

/-- C10 witness: an object observed at t = 100 examined at cycle time t = 50
wraps the unsigned subtraction to `2^64 - 50` and is archived immediately. -/
theorem C10_witness :
    usub64 50 100 = 2 ^ 64 - (100 - 50) ∧
      overdue w10cfg w10st.tstamps 50 5 = true ∧
      5 ∈ (archiveOldObjects w10g w10cfg w10st 50).2 :=
  C10_timestamp_wraparound w10g w10cfg w10st 50 5 100 1 (by decide)
    (by unfold ActDisjoint; decide) (by decide) (by decide) rfl (by decide)
    (by decide) (by decide)
